import Mathlib

/-!
# UBI core header (drivers/mtd/ubi/ubi.h): shallow embedding

The inline helpers of `ubi.h` are embedded as Lean functions over records that
mirror the C structures.  C `int` values are `Int`; where C arithmetic can
leave the 32-bit range the result is wrapped explicitly (`wrap_int`).
Pointers are addresses (`Ptr`, with `NULL = 0`) looked up in an explicit
memory; a dereference that C leaves undefined is a `Fault`.
Calls into code that lives outside the header (`ubi_io_read`, `ubi_io_write`,
`ubi_assert`, `kmalloc`) and constants of other headers are taken as
parameters.  Functions that the header only declares (`ubi_next_sqnum`,
`ubi_eba_write_leb`, `ubi_eba_read_leb`) and the kernel list and tree
primitives are modelled from the specification; their doc comments say so.
-/

namespace UBI

/-! ## Machine integers and pointers -/

/-- Smallest value of a C `int` (32 bits). -/
def INT_MIN : Int := -2147483648

/-- Largest value of a C `int` (32 bits). -/
def INT_MAX : Int := 2147483647

/-- Reduction of a mathematical integer to the 32-bit two's complement range
(the kernel is built with wrapping signed arithmetic). -/
def wrap_int (x : Int) : Int := (x + 2147483648) % 4294967296 - 2147483648

/-- C `a + b` on `int`. -/
def int_add (a b : Int) : Int := wrap_int (a + b)

/-- C `a - b` on `int`. -/
def int_sub (a b : Int) : Int := wrap_int (a - b)

/-- Conversion of an `int` to `u8` (the value modulo 256). -/
def to_u8 (x : Int) : Int := x % 256

/-- An address. -/
abbrev Ptr := Nat

/-- The null pointer. -/
def NULL : Ptr := 0

/-- What goes wrong when C semantics leaves an access undefined. -/
inductive Fault where
  | null_deref
  | bad_pointer
  | out_of_bounds
  | out_of_fuel
  deriving DecidableEq, Repr

/-- Observable diagnostics: `ubi_warn(ubi, msg)` and `dump_stack()`. -/
inductive Event where
  | ubi_warn (msg : String)
  | dump_stack
  deriving DecidableEq, Repr

/-- A kernel object that the header only embeds by value (`struct cdev`,
`struct device`, `struct mutex`, `struct rw_semaphore`, `struct rb_root`,
`struct list_head`, `struct work_struct`): its words, uninterpreted. -/
structure kobj where
  words : List Nat
  deriving DecidableEq, Repr

/-! ## Constants defined in ubi.h -/

/-- `#define UBI_MAX_DEVICES 32` -/
def UBI_MAX_DEVICES : Int := 32

/-- `#define UBI_LEB_UNMAPPED -1`: the EBA marker of an un-mapped LEB. -/
def UBI_LEB_UNMAPPED : Int := -1

/-- `#define UBI_PROT_QUEUE_LEN 10` -/
def UBI_PROT_QUEUE_LEN : Int := 10

/-- `#define UBI_UNKNOWN -1`: volume ID / LEB number / erase counter unknown. -/
def UBI_UNKNOWN : Int := -1

/-- `#define UBI_EBA_NA -1` -/
def UBI_EBA_NA : Int := -1

/-- First enumerator of the `ubi_eba_copy_leb()` return codes (`= 1`). -/
def MOVE_CANCEL_RACE : Int := 1

/-- Second enumerator: previous one plus one. -/
def MOVE_SOURCE_RD_ERR : Int := MOVE_CANCEL_RACE + 1

/-- Third enumerator: previous one plus one. -/
def MOVE_TARGET_RD_ERR : Int := MOVE_SOURCE_RD_ERR + 1

/-- Fourth enumerator: previous one plus one. -/
def MOVE_TARGET_WR_ERR : Int := MOVE_TARGET_RD_ERR + 1

/-- Fifth enumerator: previous one plus one. -/
def MOVE_TARGET_BITFLIPS : Int := MOVE_TARGET_WR_ERR + 1

/-- Sixth enumerator: previous one plus one. -/
def MOVE_RETRY : Int := MOVE_TARGET_BITFLIPS + 1

/-- `enum ubi_io_mode`, first enumerator (`0`). -/
def UBI_IO_MODE_NORMAL : Int := 0

/-- `enum ubi_io_mode`, second enumerator (`1`). -/
def UBI_IO_MODE_SLC : Int := UBI_IO_MODE_NORMAL + 1

/-! ## Constants the header uses but does not define -/

/-- Constants that `ubi.h` takes from `ubi-media.h`, `mtd/ubi-user.h` and the
errno headers.  None of them is defined in `ubi.h`, so every function that
uses one takes this record as a parameter. -/
structure ubi_consts where
  EINVAL : Int
  UBI_VOL_MODE_NORMAL : Int
  UBI_VOL_MODE_SLC : Int
  UBI_VOL_MODE_MLC_SAFE : Int
  UBI_VID_MODE_NORMAL : Int
  UBI_VID_MODE_SLC : Int
  UBI_VID_MODE_MLC_SAFE : Int
  UBI_INTERNAL_VOL_START : Int
  UBI_FM_SB_VOLUME_ID : Int
  UBI_FM_DATA_VOLUME_ID : Int
  UBI_MAX_VOLUMES : Int
  UBI_INT_VOL_COUNT : Int
  UBI_FM_MAX_BLOCKS : Nat
  UBI_FM_MAX_POOL_SIZE : Nat
  deriving DecidableEq, Repr

/-- One admissible choice of the external constants, used to instantiate the
theorems: the mode enumerators count from zero, the internal volume IDs start
at `0x7FFFFFFF - 4096` with the two fastmap volumes right after the layout
volume. -/
def sample_consts : ubi_consts where
  EINVAL := 22
  UBI_VOL_MODE_NORMAL := 0
  UBI_VOL_MODE_SLC := 1
  UBI_VOL_MODE_MLC_SAFE := 2
  UBI_VID_MODE_NORMAL := 0
  UBI_VID_MODE_SLC := 1
  UBI_VID_MODE_MLC_SAFE := 2
  UBI_INTERNAL_VOL_START := 2147479551
  UBI_FM_SB_VOLUME_ID := 2147479552
  UBI_FM_DATA_VOLUME_ID := 2147479553
  UBI_MAX_VOLUMES := 128
  UBI_INT_VOL_COUNT := 1
  UBI_FM_MAX_BLOCKS := 32
  UBI_FM_MAX_POOL_SIZE := 256

/-- Modelled from the spec: `UBI_ALL` is declared in `include/linux/mtd/ubi.h`,
not in `ubi.h`; the value -1 is the one the specification's claims state for
it ("UBI_ALL (-1)"), and the one the comment on `UBI_LEB_UNMAPPED` requires. -/
def UBI_ALL : Int := -1

/-! ## Data structures -/

/-- `struct ubi_wl_entry`: wear-leveling entry. -/
structure ubi_wl_entry where
  u : kobj
  ec : Int
  pnum : Int
  deriving DecidableEq, Repr

/-- `struct ubi_fastmap_layout`: in-memory fastmap data structure.  The arrays
`e` and `to_be_tortured` have `UBI_FM_MAX_BLOCKS` slots in C. -/
structure ubi_fastmap_layout where
  e : List Ptr
  to_be_tortured : List Int
  used_blocks : Int
  max_pool_size : Int
  max_wl_pool_size : Int
  deriving DecidableEq, Repr

/-- `struct ubi_fm_pool`: in-memory fastmap pool. -/
structure ubi_fm_pool where
  pebs : List Int
  used : Int
  size : Int
  max_size : Int
  deriving DecidableEq, Repr

/-- `struct ubi_debug_info`: debugging information for an UBI device. -/
structure ubi_debug_info where
  chk_gen : Nat
  chk_io : Nat
  chk_fastmap : Nat
  disable_bgt : Nat
  emulate_bitflips : Nat
  emulate_io_failures : Nat
  emulate_power_cut : Nat
  power_cut_counter : Nat
  power_cut_min : Nat
  power_cut_max : Nat
  dfs_dir_name : List Nat
  dfs_dir : Ptr
  dfs_chk_gen : Ptr
  dfs_chk_io : Ptr
  dfs_chk_fastmap : Ptr
  dfs_disable_bgt : Ptr
  dfs_emulate_bitflips : Ptr
  dfs_emulate_io_failures : Ptr
  dfs_emulate_power_cut : Ptr
  dfs_power_cut_min : Ptr
  dfs_power_cut_max : Ptr

/-- `struct ubi_volume`: UBI volume description data structure. -/
structure ubi_volume where
  dev : kobj
  cdev : kobj
  ubi : Ptr
  vol_id : Int
  ref_count : Int
  readers : Int
  writers : Int
  exclusive : Int
  metaonly : Int
  reserved_pebs : Int
  reserved_lebs : Int
  vol_type : Int
  vol_mode : Int
  slc_ratio : Int
  leb_size : Int
  usable_leb_size : Int
  used_ebs : Int
  last_eb_bytes : Int
  used_bytes : Int
  alignment : Int
  data_pad : Int
  name_len : Int
  name : List Nat
  upd_ebs : Int
  ch_lnum : Int
  upd_bytes : Int
  upd_received : Int
  upd_buf : Ptr
  ltree_lock : kobj
  ltree : kobj
  eba_tbl : Ptr
  eba_tbl_ops : Ptr
  conso : Ptr
  checked : Nat
  corrupted : Nat
  upd_marker : Nat
  updating : Nat
  changing_leb : Nat
  direct_writes : Nat

/-- `struct ubi_device`: UBI device description structure, field by field. -/
structure ubi_device where
  cdev : kobj
  dev : kobj
  ubi_num : Int
  ubi_name : List Nat
  vol_count : Int
  volumes : List Ptr
  volumes_lock : kobj
  ref_count : Int
  image_seq : Int
  version : Int
  rsvd_pebs : Int
  avail_pebs : Int
  beb_rsvd_pebs : Int
  beb_rsvd_level : Int
  bad_peb_limit : Int
  autoresize_vol_id : Int
  vtbl_slots : Int
  vtbl_size : Int
  vtbl : Ptr
  device_mutex : kobj
  max_ec : Int
  mean_ec : Int
  global_sqnum : Nat
  alc_mutex : kobj
  eba_sem : kobj
  fm_disabled : Int
  fm : Ptr
  fm_pool : ubi_fm_pool
  fm_wl_pool : ubi_fm_pool
  fm_protect : kobj
  fm_buf : Ptr
  fm_size : Nat
  fm_work : kobj
  fm_work_scheduled : Int
  fast_attach : Int
  used : kobj
  erroneous : kobj
  free : kobj
  free_count : Int
  scrub : kobj
  pq : List kobj
  pq_head : Int
  wl_lock : kobj
  move_mutex : kobj
  work_sem : kobj
  wl_scheduled : Int
  lookuptbl : Ptr
  move_from : Ptr
  move_to : Ptr
  move_to_put : Int
  works : kobj
  works_count : Int
  bgt_thread : Ptr
  thread_enabled : Int
  bgt_name : List Nat
  flash_size : Int
  peb_count : Int
  peb_size : Int
  max_lebs_per_peb : Int
  bad_peb_count : Int
  good_peb_count : Int
  corr_peb_count : Int
  erroneous_peb_count : Int
  max_erroneous : Int
  min_io_size : Int
  hdrs_min_io_size : Int
  ro_mode : Int
  leb_size : Int
  slc_leb_size : Int
  leb_start : Int
  ec_hdr_alsize : Int
  vid_hdr_alsize : Int
  vid_hdr_offset : Int
  vid_hdr_aloffset : Int
  vid_hdr_shift : Int
  bad_allowed : Nat
  nor_flash : Nat
  max_write_size : Int
  mtd : Ptr
  peb_buf : Ptr
  buf_mutex : kobj
  ckvol_mutex : kobj
  dbg : ubi_debug_info

/-- A pool with every field zero. -/
def zero_fm_pool : ubi_fm_pool := ⟨[], 0, 0, 0⟩

/-- Debugging information with every field zero. -/
def zero_debug_info : ubi_debug_info :=
  ⟨0, 0, 0, 0, 0, 0, 0, 0, 0, 0, [], 0, 0, 0, 0, 0, 0, 0, 0, 0, 0⟩

/-- A device description as `kzalloc` hands it out: every field zero. -/
def zero_device : ubi_device where
  cdev := ⟨[]⟩
  dev := ⟨[]⟩
  ubi_num := 0
  ubi_name := []
  vol_count := 0
  volumes := []
  volumes_lock := ⟨[]⟩
  ref_count := 0
  image_seq := 0
  version := 0
  rsvd_pebs := 0
  avail_pebs := 0
  beb_rsvd_pebs := 0
  beb_rsvd_level := 0
  bad_peb_limit := 0
  autoresize_vol_id := 0
  vtbl_slots := 0
  vtbl_size := 0
  vtbl := NULL
  device_mutex := ⟨[]⟩
  max_ec := 0
  mean_ec := 0
  global_sqnum := 0
  alc_mutex := ⟨[]⟩
  eba_sem := ⟨[]⟩
  fm_disabled := 0
  fm := NULL
  fm_pool := zero_fm_pool
  fm_wl_pool := zero_fm_pool
  fm_protect := ⟨[]⟩
  fm_buf := NULL
  fm_size := 0
  fm_work := ⟨[]⟩
  fm_work_scheduled := 0
  fast_attach := 0
  used := ⟨[]⟩
  erroneous := ⟨[]⟩
  free := ⟨[]⟩
  free_count := 0
  scrub := ⟨[]⟩
  pq := []
  pq_head := 0
  wl_lock := ⟨[]⟩
  move_mutex := ⟨[]⟩
  work_sem := ⟨[]⟩
  wl_scheduled := 0
  lookuptbl := NULL
  move_from := NULL
  move_to := NULL
  move_to_put := 0
  works := ⟨[]⟩
  works_count := 0
  bgt_thread := NULL
  thread_enabled := 0
  bgt_name := []
  flash_size := 0
  peb_count := 0
  peb_size := 0
  max_lebs_per_peb := 0
  bad_peb_count := 0
  good_peb_count := 0
  corr_peb_count := 0
  erroneous_peb_count := 0
  max_erroneous := 0
  min_io_size := 0
  hdrs_min_io_size := 0
  ro_mode := 0
  leb_size := 0
  slc_leb_size := 0
  leb_start := 0
  ec_hdr_alsize := 0
  vid_hdr_alsize := 0
  vid_hdr_offset := 0
  vid_hdr_aloffset := 0
  vid_hdr_shift := 0
  bad_allowed := 0
  nor_flash := 0
  max_write_size := 0
  mtd := NULL
  peb_buf := NULL
  buf_mutex := ⟨[]⟩
  ckvol_mutex := ⟨[]⟩
  dbg := zero_debug_info

/-! ## Read-only mode -/

/-- `ubi_ro_mode`: switch to read-only mode.  Returns the device after the call
and the diagnostics the call emitted, in order. -/
def ubi_ro_mode (ubi : ubi_device) : ubi_device × List Event :=
  if ubi.ro_mode = 0 then
    ({ ubi with ro_mode := 1 },
      [Event.ubi_warn "switch to read-only mode", Event.dump_stack])
  else
    (ubi, [])

/-- The device after `n` consecutive calls of `ubi_ro_mode`. -/
def ubi_ro_mode_calls : Nat → ubi_device → ubi_device
  | 0, ubi => ubi
  | n + 1, ubi => ubi_ro_mode_calls n (ubi_ro_mode ubi).1

/-! ## LEB-relative I/O -/

/-- `ubi_io_read_data`: `ubi_io_read()` with an offset relative to the start of
the logical eraseblock.  `ubi_assert` (a macro of `debug.h`) and `ubi_io_read`
(of `io.c`) are parameters: the first acts on the environment `σ` given the
truth value of the asserted expression, the second produces the outcome `ρ`
of the read (return value and every effect). -/
def ubi_io_read_data {σ ρ : Type} (ubi_assert : Bool → σ → σ)
    (ubi_io_read : ubi_device → Ptr → Int → Int → Int → Int → σ → ρ)
    (ubi : ubi_device) (buf : Ptr) (pnum offset len mode : Int) (s : σ) : ρ :=
  let s1 := ubi_assert (decide (offset ≥ 0)) s
  ubi_io_read ubi buf pnum (int_add offset ubi.leb_start) len mode s1

/-- `ubi_io_write_data`: `ubi_io_write()` with an offset relative to the start
of the logical eraseblock.  Parameters as for `ubi_io_read_data`. -/
def ubi_io_write_data {σ ρ : Type} (ubi_assert : Bool → σ → σ)
    (ubi_io_write : ubi_device → Ptr → Int → Int → Int → Int → σ → ρ)
    (ubi : ubi_device) (buf : Ptr) (pnum offset len mode : Int) (s : σ) : ρ :=
  let s1 := ubi_assert (decide (offset ≥ 0)) s
  ubi_io_write ubi buf pnum (int_add offset ubi.leb_start) len mode s1

/-! ## Volume modes, VID header modes and I/O modes -/

/-- Modelled from the spec: `struct ubi_vid_hdr` is declared in `ubi-media.h`,
not in `ubi.h`.  The fields are the ones the specification lists for a VID
header: magic, version, `vol_id`, `lnum`, `vol_type`, `vol_mode`, `used_ebs`,
`data_size`, `data_pad`, `copy_flag`, `sqnum`, CRC. -/
structure ubi_vid_hdr where
  magic : Int
  version : Int
  vol_id : Int
  lnum : Int
  vol_type : Int
  vol_mode : Int
  used_ebs : Int
  data_size : Int
  data_pad : Int
  copy_flag : Int
  sqnum : Int
  hdr_crc : Int
  deriving DecidableEq, Repr

/-- `ubi_io_mode_from_vid_hdr`: extract the I/O mode from VID header
information. -/
def ubi_io_mode_from_vid_hdr (K : ubi_consts) (vid_hdr : ubi_vid_hdr) : Int :=
  if vid_hdr.vol_mode = K.UBI_VID_MODE_NORMAL then UBI_IO_MODE_NORMAL
  else if vid_hdr.vol_mode = K.UBI_VID_MODE_SLC then UBI_IO_MODE_SLC
  else -K.EINVAL

/-- `ubi_vol_mode_from_vid_hdr`: extract the volume mode from VID header
information. -/
def ubi_vol_mode_from_vid_hdr (K : ubi_consts) (vid_hdr : ubi_vid_hdr) : Int :=
  if vid_hdr.vol_mode = K.UBI_VID_MODE_NORMAL then K.UBI_VOL_MODE_NORMAL
  else if vid_hdr.vol_mode = K.UBI_VID_MODE_SLC then K.UBI_VOL_MODE_SLC
  else if vid_hdr.vol_mode = K.UBI_VID_MODE_MLC_SAFE then K.UBI_VOL_MODE_MLC_SAFE
  else -K.EINVAL

/-- `ubi_vol_mode_to_io_mode`: convert volume mode into I/O mode. -/
def ubi_vol_mode_to_io_mode (K : ubi_consts) (vol_mode : Int) : Int :=
  if vol_mode = K.UBI_VOL_MODE_NORMAL ∨ vol_mode = K.UBI_VOL_MODE_MLC_SAFE then
    UBI_IO_MODE_NORMAL
  else if vol_mode = K.UBI_VOL_MODE_SLC then UBI_IO_MODE_SLC
  else -K.EINVAL

/-- `ubi_vol_mode_to_vid_hdr`: the VID header mode of a volume.  The C function
returns `u8`, so every returned `int` is converted. -/
def ubi_vol_mode_to_vid_hdr (K : ubi_consts) (vol : ubi_volume) : Int :=
  if vol.vol_mode = K.UBI_VOL_MODE_NORMAL then to_u8 K.UBI_VID_MODE_NORMAL
  else if vol.vol_mode = K.UBI_VOL_MODE_SLC then to_u8 K.UBI_VID_MODE_SLC
  else if vol.vol_mode = K.UBI_VOL_MODE_MLC_SAFE then to_u8 K.UBI_VID_MODE_MLC_SAFE
  else to_u8 (-K.EINVAL)

/-- A volume description with every field zero. -/
def zero_volume : ubi_volume where
  dev := ⟨[]⟩
  cdev := ⟨[]⟩
  ubi := NULL
  vol_id := 0
  ref_count := 0
  readers := 0
  writers := 0
  exclusive := 0
  metaonly := 0
  reserved_pebs := 0
  reserved_lebs := 0
  vol_type := 0
  vol_mode := 0
  slc_ratio := 0
  leb_size := 0
  usable_leb_size := 0
  used_ebs := 0
  last_eb_bytes := 0
  used_bytes := 0
  alignment := 0
  data_pad := 0
  name_len := 0
  name := []
  upd_ebs := 0
  ch_lnum := 0
  upd_bytes := 0
  upd_received := 0
  upd_buf := NULL
  ltree_lock := ⟨[]⟩
  ltree := ⟨[]⟩
  eba_tbl := NULL
  eba_tbl_ops := NULL
  conso := NULL
  checked := 0
  corrupted := 0
  upd_marker := 0
  updating := 0
  changing_leb := 0
  direct_writes := 0

/-- A VID header with every field zero. -/
def zero_vid_hdr : ubi_vid_hdr := ⟨0, 0, 0, 0, 0, 0, 0, 0, 0, 0, 0, 0⟩

/-! ## Fastmap helpers -/

/-- `ubi_is_fm_vol`: check whether a volume ID is a Fastmap volume. -/
def ubi_is_fm_vol (K : ubi_consts) (vol_id : Int) : Bool :=
  if vol_id = K.UBI_FM_SB_VOLUME_ID ∨ vol_id = K.UBI_FM_DATA_VOLUME_ID then true
  else false

/-- C `xs[i]` on an array: outside the array the access is undefined. -/
def array_get {α : Type} (xs : List α) (i : Int) : Except Fault α :=
  if i < 0 then Except.error Fault.out_of_bounds
  else
    match xs.get? i.toNat with
    | some x => Except.ok x
    | none => Except.error Fault.out_of_bounds

/-- C `*p` for a pointer to a wear-leveling entry. -/
def deref_wl (wl_mem : Ptr → Option ubi_wl_entry) (p : Ptr) :
    Except Fault ubi_wl_entry :=
  if p = NULL then Except.error Fault.null_deref
  else
    match wl_mem p with
    | some e => Except.ok e
    | none => Except.error Fault.bad_pointer

/-- The `for (i = 0; i < ubi->fm->used_blocks; i++)` loop of
`ubi_find_fm_block`, from the loop test with counter `i`; every evaluation of
the loop test costs one unit of fuel. -/
def ubi_find_fm_block_loop (wl_mem : Ptr → Option ubi_wl_entry)
    (fm : ubi_fastmap_layout) (pnum : Int) : Nat → Int → Except Fault Ptr
  | 0, _ => Except.error Fault.out_of_fuel
  | fuel + 1, i =>
    if i < fm.used_blocks then
      match array_get fm.e i with
      | Except.error f => Except.error f
      | Except.ok p =>
        match deref_wl wl_mem p with
        | Except.error f => Except.error f
        | Except.ok e =>
          if e.pnum = pnum then Except.ok p
          else ubi_find_fm_block_loop wl_mem fm pnum fuel (int_add i 1)
    else Except.ok NULL

/-- `ubi_find_fm_block`: check whether a PEB is part of the current Fastmap.
`fm_mem` and `wl_mem` are the memory holding fastmap layouts and wear-leveling
entries.  The loop test is evaluated at most `used_blocks + 1` times, which is
the fuel given. -/
def ubi_find_fm_block (fm_mem : Ptr → Option ubi_fastmap_layout)
    (wl_mem : Ptr → Option ubi_wl_entry) (ubi : ubi_device) (pnum : Int) :
    Except Fault Ptr :=
  if ubi.fm ≠ NULL then
    match fm_mem ubi.fm with
    | none => Except.error Fault.bad_pointer
    | some fm => ubi_find_fm_block_loop wl_mem fm pnum (fm.used_blocks.toNat + 1) 0
  else Except.ok NULL

/-- The words of the function comment, "`pnum` relates to the current
fastmap": there is a fastmap and one of its `used_blocks` first entries has
this PEB number. -/
def pnum_in_current_fastmap (fm_mem : Ptr → Option ubi_fastmap_layout)
    (wl_mem : Ptr → Option ubi_wl_entry) (ubi : ubi_device) (pnum : Int) : Prop :=
  ubi.fm ≠ NULL ∧ ∃ fm, fm_mem ubi.fm = some fm ∧
    ∃ i : Nat, (i : Int) < fm.used_blocks ∧
      ∃ p e, fm.e.get? i = some p ∧ wl_mem p = some e ∧ e.pnum = pnum

/-- The fastmap of a device is well formed: `ubi->fm` is NULL or points to a
layout whose `used_blocks` (a C `int`) first slots of `e` exist and point to
wear-leveling entries. -/
def fm_well_formed (fm_mem : Ptr → Option ubi_fastmap_layout)
    (wl_mem : Ptr → Option ubi_wl_entry) (ubi : ubi_device) : Prop :=
  ubi.fm ≠ NULL → ∃ fm, fm_mem ubi.fm = some fm ∧ fm.used_blocks ≤ INT_MAX ∧
    ∀ i : Nat, (i : Int) < fm.used_blocks →
      ∃ p e, fm.e.get? i = some p ∧ p ≠ NULL ∧ wl_mem p = some e

/-- A fastmap layout with three used blocks at addresses 10, 11, 12. -/
def sample_fm : ubi_fastmap_layout := ⟨[10, 11, 12, 0], [0, 0, 0, 0], 3, 0, 0⟩

/-- Memory holding `sample_fm` at address 7. -/
def sample_fm_mem : Ptr → Option ubi_fastmap_layout :=
  fun p => if p = 7 then some sample_fm else none

/-- Memory holding the entries of PEBs 40, 41, 42 at addresses 10, 11, 12. -/
def sample_wl_mem : Ptr → Option ubi_wl_entry :=
  fun p =>
    if p = 10 then some ⟨⟨[]⟩, 0, 40⟩
    else if p = 11 then some ⟨⟨[]⟩, 0, 41⟩
    else if p = 12 then some ⟨⟨[]⟩, 0, 42⟩
    else none

/-- A device whose fastmap is `sample_fm`. -/
def sample_fm_device : ubi_device := { zero_device with fm := 7 }

/-! ## Volumes and PEB descriptors -/

/-- `ubi_leb_valid`: whether `lnum` is a LEB number of the volume. -/
def ubi_leb_valid (vol : ubi_volume) (lnum : Int) : Bool :=
  decide (lnum ≥ 0) && decide (lnum < vol.reserved_lebs)

/-- `struct ubi_peb_desc`: physical eraseblock descriptor.  `lnums` is the
flexible array at the end of the structure: it has as many slots as the
allocation left room for. -/
structure ubi_peb_desc where
  pnum : Int
  vol_id : Int
  lnums : List Int
  deriving DecidableEq, Repr

/-- `sizeof(struct ubi_peb_desc)`: two `int` fields, the flexible array takes
no room. -/
def sizeof_ubi_peb_desc : Int := 8

/-- `sizeof(int)`. -/
def sizeof_int : Int := 4

/-- C `xs[i] = v` on an array: outside the array the store is undefined. -/
def array_set {α : Type} (xs : List α) (i : Int) (v : α) : Except Fault (List α) :=
  if i < 0 then Except.error Fault.out_of_bounds
  else if i.toNat < xs.length then Except.ok (xs.set i.toNat v)
  else Except.error Fault.out_of_bounds

/-- The `for (i = 0; i < ubi->max_lebs_per_peb; i++) pdesc->lnums[i] =
UBI_UNKNOWN;` loop of `ubi_alloc_pdesc`, from the loop test with counter `i`;
every evaluation of the loop test costs one unit of fuel. -/
def ubi_alloc_pdesc_loop (max_lebs_per_peb : Int) :
    Nat → Int → List Int → Except Fault (List Int)
  | 0, _, _ => Except.error Fault.out_of_fuel
  | fuel + 1, i, lnums =>
    if i < max_lebs_per_peb then
      match array_set lnums i UBI_UNKNOWN with
      | Except.error f => Except.error f
      | Except.ok lnums1 =>
        ubi_alloc_pdesc_loop max_lebs_per_peb fuel (int_add i 1) lnums1
    else Except.ok lnums

/-- `ubi_alloc_pdesc`: allocate and initialise a PEB descriptor.  `kmalloc`
(the kernel allocator) is a parameter: for a size and flags it gives nothing
(NULL) or a fresh descriptor object with unspecified contents.  The result is
`none` for NULL and the initialised object otherwise.  The size expression is
computed in `size_t` and stored in an `int`, which leaves its low 32 bits. -/
def ubi_alloc_pdesc (kmalloc : Int → Nat → Option ubi_peb_desc) (ubi : ubi_device)
    (gfp_flags : Nat) : Except Fault (Option ubi_peb_desc) :=
  let size := wrap_int (sizeof_ubi_peb_desc + sizeof_int * ubi.max_lebs_per_peb)
  match kmalloc size gfp_flags with
  | none => Except.ok none
  | some pdesc =>
    let pdesc1 := { pdesc with pnum := UBI_UNKNOWN }
    let pdesc2 := { pdesc1 with vol_id := UBI_UNKNOWN }
    match ubi_alloc_pdesc_loop ubi.max_lebs_per_peb
        (ubi.max_lebs_per_peb.toNat + 1) 0 pdesc2.lnums with
    | Except.error f => Except.error f
    | Except.ok lnums => Except.ok (some { pdesc2 with lnums := lnums })

/-- An allocator that always succeeds and hands out a descriptor with
arbitrary contents and four slots. -/
def sample_kmalloc : Int → Nat → Option ubi_peb_desc :=
  fun _ _ => some ⟨77, 78, [70, 71, 72, 73]⟩

/-! ## Attach information -/

/-- `struct ubi_ainf_leb`: attach information about a logical eraseblock. -/
structure ubi_ainf_leb where
  node : kobj
  lnum : Int
  copy_flag : Nat
  peb : Ptr
  deriving DecidableEq, Repr

/-- `struct ubi_ainf_mleb`: the consolidated view of a PEB. -/
structure ubi_ainf_mleb where
  refcnt : Int
  cpeb : Ptr
  deriving DecidableEq, Repr

/-- `struct ubi_ainf_sleb`: the non-consolidated view of a PEB. -/
structure ubi_ainf_sleb where
  pnum : Int
  lnum : Int
  deriving DecidableEq, Repr

/-- The anonymous union of `struct ubi_ainf_peb`,
`union { struct ubi_ainf_mleb mleb; struct ubi_ainf_sleb sleb; }`: one piece
of storage that is read and written through either member.  Both members
begin with an `int`, so `mleb.refcnt` and `sleb.pnum` are the same word, kept
once as `refcnt_pnum`.  `cpeb` is the remainder of `mleb` and `lnum` the
remainder of `sleb`: with 64-bit pointers `lnum` lies in the padding before
`cpeb`, with 32-bit pointers the two share their bytes.  No function of the
header stores into either of them, so they are kept side by side. -/
structure ubi_ainf_mleb_sleb where
  refcnt_pnum : Int
  cpeb : Ptr
  lnum : Int
  deriving DecidableEq, Repr

/-- `struct ubi_ainf_peb`: attach information about a physical eraseblock.
`mleb_sleb` is the storage of the anonymous union; the members `mleb` and
`sleb` are read from it by `ubi_ainf_peb.mleb` and `ubi_ainf_peb.sleb`.  The
links of `node` are represented by the list the PEB is on. -/
structure ubi_ainf_peb where
  node : kobj
  ec : Int
  vol_id : Int
  scrub : Nat
  consolidated : Nat
  sqnum : Nat
  mleb_sleb : ubi_ainf_mleb_sleb
  deriving DecidableEq, Repr

/-- C `peb->mleb`: the union read as `struct ubi_ainf_mleb`. -/
def ubi_ainf_peb.mleb (peb : ubi_ainf_peb) : ubi_ainf_mleb :=
  ⟨peb.mleb_sleb.refcnt_pnum, peb.mleb_sleb.cpeb⟩

/-- C `peb->sleb`: the union read as `struct ubi_ainf_sleb`. -/
def ubi_ainf_peb.sleb (peb : ubi_ainf_peb) : ubi_ainf_sleb :=
  ⟨peb.mleb_sleb.refcnt_pnum, peb.mleb_sleb.lnum⟩

/-- C `peb->mleb.refcnt = v`: the store changes the first word of the union,
which is `sleb.pnum` as well. -/
def ubi_ainf_peb.store_mleb_refcnt (peb : ubi_ainf_peb) (v : Int) : ubi_ainf_peb :=
  { peb with mleb_sleb := { peb.mleb_sleb with refcnt_pnum := v } }

/-- `struct ubi_ainf_volume`: attaching information about a volume.  `root` is
the RB-tree of the volume, kept as the sequence of the `ubi_ainf_leb` objects
linked in it. -/
structure ubi_ainf_volume where
  vol_id : Int
  highest_lnum : Int
  leb_count : Int
  vol_type : Int
  vol_mode : Int
  used_ebs : Int
  last_data_size : Int
  data_pad : Int
  compat : Int
  rb : kobj
  root : List Ptr
  deriving DecidableEq, Repr

/-- C `*p` for a pointer into the memory `mem`. -/
def deref_ptr {α : Type} (mem : Ptr → Option α) (p : Ptr) : Except Fault α :=
  if p = NULL then Except.error Fault.null_deref
  else
    match mem p with
    | some x => Except.ok x
    | none => Except.error Fault.bad_pointer

/-- The memory `mem` after `*p = x`. -/
def store_ptr {α : Type} (mem : Ptr → Option α) (p : Ptr) (x : α) : Ptr → Option α :=
  fun q => if q = p then some x else mem q

/-- Modelled from the spec: `rb_erase` is the kernel's red-black tree removal
(`lib/rbtree.c`), not part of `ubi.h`.  The per-volume LEB tree of the
specification is kept as the sequence of the entries linked in it, and erasing
an entry unlinks it. -/
def rb_erase (node : Ptr) (root : List Ptr) : List Ptr := root.erase node

/-- Modelled from the spec: `list_add_tail` is the kernel's list insertion
(`linux/list.h`), not part of `ubi.h`.  A list of the specification (the erase
list, for one) is the sequence of the PEBs on it, and the new one goes to its
tail. -/
def list_add_tail (node : Ptr) (list : List Ptr) : List Ptr := list ++ [node]

/-- `ubi_ainf_get_pnum`: the PEB number of a PEB.  `cpeb_mem` holds the
`pnum` field of the consolidated PEB objects. -/
def ubi_ainf_get_pnum (cpeb_mem : Ptr → Option Int) (peb : ubi_ainf_peb) :
    Except Fault Int :=
  if peb.consolidated = 0 then Except.ok peb.sleb.pnum
  else deref_ptr cpeb_mem peb.mleb.cpeb

/-- `ubi_ainf_dec_apeb_refcnt`: drop one reference of a PEB.  Returns the PEB
record after the call and the value returned. -/
def ubi_ainf_dec_apeb_refcnt (peb : ubi_ainf_peb) : ubi_ainf_peb × Int :=
  if peb.consolidated = 0 then (peb, 0)
  else
    (peb.store_mleb_refcnt (int_sub peb.mleb.refcnt 1), int_sub peb.mleb.refcnt 1)

/-- `ubi_ainf_in_apeb_refcnt`: take one more reference of a PEB.  Returns the
PEB record after the call. -/
def ubi_ainf_in_apeb_refcnt (peb : ubi_ainf_peb) : ubi_ainf_peb :=
  if peb.consolidated = 0 then peb
  else peb.store_mleb_refcnt (int_add peb.mleb.refcnt 1)

/-- `ubi_remove_aleb`: remove a LEB from the volume tree.  `aleb_mem` and
`apeb_mem` are the memory holding the LEB and PEB records; `aleb` is the
address of the LEB record and `list` the target list.  Returns the PEB memory,
the volume and the list after the call. -/
def ubi_remove_aleb (aleb_mem : Ptr → Option ubi_ainf_leb)
    (apeb_mem : Ptr → Option ubi_ainf_peb) (av : ubi_ainf_volume) (aleb : Ptr)
    (list : List Ptr) :
    Except Fault ((Ptr → Option ubi_ainf_peb) × ubi_ainf_volume × List Ptr) :=
  match deref_ptr aleb_mem aleb with
  | Except.error f => Except.error f
  | Except.ok a =>
    let apeb := a.peb
    let av1 := { av with root := rb_erase aleb av.root }
    match deref_ptr apeb_mem apeb with
    | Except.error f => Except.error f
    | Except.ok peb =>
      let r := ubi_ainf_dec_apeb_refcnt peb
      let apeb_mem1 := store_ptr apeb_mem apeb r.1
      if r.2 = 0 then Except.ok (apeb_mem1, av1, list_add_tail apeb list)
      else Except.ok (apeb_mem1, av1, list)

/-- Consecutive calls of `ubi_remove_aleb` on the LEB records `alebs`, in this
order, on the same volume and target list. -/
def ubi_remove_alebs (aleb_mem : Ptr → Option ubi_ainf_leb) :
    List Ptr → (Ptr → Option ubi_ainf_peb) → ubi_ainf_volume → List Ptr →
    Except Fault ((Ptr → Option ubi_ainf_peb) × ubi_ainf_volume × List Ptr)
  | [], apeb_mem, av, list => Except.ok (apeb_mem, av, list)
  | aleb :: rest, apeb_mem, av, list =>
    match ubi_remove_aleb aleb_mem apeb_mem av aleb list with
    | Except.error f => Except.error f
    | Except.ok st => ubi_remove_alebs aleb_mem rest st.1 st.2.1 st.2.2

/-- A consolidated PEB record with reference count `r`. -/
def sample_apeb (r : Int) : ubi_ainf_peb :=
  ⟨⟨[]⟩, 3, 0, 0, 1, 9, ⟨r, 500, 0⟩⟩

/-- A non-consolidated PEB record (PEB 6, LEB 2). -/
def sample_single_apeb : ubi_ainf_peb :=
  ⟨⟨[]⟩, 3, 0, 0, 0, 9, ⟨6, NULL, 2⟩⟩

/-- Memory with the consolidated PEB (two references) at address 100 and the
non-consolidated one at address 101. -/
def sample_apeb_mem : Ptr → Option ubi_ainf_peb :=
  fun p =>
    if p = 100 then some (sample_apeb 2)
    else if p = 101 then some sample_single_apeb
    else none

/-- Memory with two LEB records of the consolidated PEB at addresses 200 and
201 and one of the non-consolidated PEB at address 202. -/
def sample_aleb_mem : Ptr → Option ubi_ainf_leb :=
  fun p =>
    if p = 200 then some ⟨⟨[]⟩, 0, 0, 100⟩
    else if p = 201 then some ⟨⟨[]⟩, 1, 0, 100⟩
    else if p = 202 then some ⟨⟨[]⟩, 2, 0, 101⟩
    else none

/-- A volume whose tree holds the three sample LEB records. -/
def sample_av : ubi_ainf_volume := ⟨0, 2, 3, 0, 0, 0, 0, 0, 0, ⟨[]⟩, [200, 201, 202]⟩

/-! ## Read-only mode: diagnostics of a sequence of calls -/

/-- The diagnostics emitted by `n` consecutive calls of `ubi_ro_mode`. -/
def ubi_ro_mode_calls_log : Nat → ubi_device → List Event
  | 0, _ => []
  | n + 1, ubi => (ubi_ro_mode ubi).2 ++ ubi_ro_mode_calls_log n (ubi_ro_mode ubi).1

/-! ## Sequence numbers (declared in ubi.h, defined in eba.c) -/

/-- Number of values of the 64-bit `global_sqnum` counter. -/
def SQNUM_MODULUS : Nat := 18446744073709551616

/-- Modelled from the spec: `ubi_next_sqnums` is only declared in `ubi.h` (its
body is in `eba.c`).  The specification says "`next_sqnums(n)` reserves a
contiguous run" of the global `sqnum`, a "64-bit counter": the call returns the
first number of the run, the value of `global_sqnum`, and moves the counter
past the run. -/
def ubi_next_sqnums (ubi : ubi_device) (num : Int) : Nat × ubi_device :=
  (ubi.global_sqnum,
    { ubi with
      global_sqnum := (((ubi.global_sqnum : Int) + num) % (SQNUM_MODULUS : Int)).toNat })

/-- Modelled from the spec: `ubi_next_sqnum` is only declared in `ubi.h` (its
body is in `eba.c`).  The specification says the global `sqnum` is "fetched
via `next_sqnum()` immediately before each VID-header write" and "bumped on
every VID-header write": a run of one. -/
def ubi_next_sqnum (ubi : ubi_device) : Nat × ubi_device :=
  ubi_next_sqnums ubi 1

/-- The sequence numbers of the run that starts at `first` and has `num`
members, in the order they are stamped. -/
def sqnum_run (first : Nat) (num : Int) : List Nat :=
  (List.range num.toNat).map (fun k => (first + k) % SQNUM_MODULUS)

/-- All sequence numbers handed out by consecutive calls on one device, in
order; `calls` gives the `num` argument of each call (`1` for
`ubi_next_sqnum`). -/
def sqnums_handed_out : ubi_device → List Int → List Nat
  | _, [] => []
  | ubi, num :: rest =>
    sqnum_run (ubi_next_sqnums ubi num).1 num ++
      sqnums_handed_out (ubi_next_sqnums ubi num).2 rest

/-! ## EBA read and write (declared in ubi.h, defined in eba.c) -/

/-- `vol_id2idx`: get table index by volume ID. -/
def vol_id2idx (K : ubi_consts) (ubi : ubi_device) (vol_id : Int) : Int :=
  if vol_id ≥ K.UBI_INTERNAL_VOL_START then
    int_add (int_sub vol_id K.UBI_INTERNAL_VOL_START) ubi.vtbl_slots
  else vol_id

/-- A device with a full volume table: 128 slots, and a `volumes` array of
129 pointers. -/
def sample_vtbl_device : ubi_device :=
  { zero_device with vtbl_slots := 128, volumes := List.replicate 129 NULL }

/-! ## Theorems -/

theorem wrap_int_of_in_range (x : Int) (hlo : INT_MIN ≤ x) (hhi : x ≤ INT_MAX) :
    wrap_int x = x := by
  unfold wrap_int
  unfold INT_MIN at hlo
  unfold INT_MAX at hhi
  omega

theorem ubi_ro_mode_calls_ne_zero (n : Nat) :
    ∀ ubi : ubi_device, ubi.ro_mode ≠ 0 → (ubi_ro_mode_calls n ubi).ro_mode ≠ 0 := by
  induction n with
  | zero => intro ubi h; simpa [ubi_ro_mode_calls] using h
  | succ k ih =>
    intro ubi h
    have hstep : ubi_ro_mode ubi = (ubi, []) := by simp [ubi_ro_mode, h]
    simp only [ubi_ro_mode_calls, hstep]
    exact ih ubi h

/-- C1: read-only mode is a one-way latch.  After `ubi_ro_mode` the `ro_mode`
field is non-zero: exactly 1 when it was 0 on entry, unchanged when it was
already non-zero; and after any further number of `ubi_ro_mode` calls it is
still non-zero. -/
theorem ubi_ro_mode_latch (ubi : ubi_device) :
    (ubi_ro_mode ubi).1.ro_mode ≠ 0 ∧
    (ubi.ro_mode = 0 → (ubi_ro_mode ubi).1.ro_mode = 1) ∧
    (ubi.ro_mode ≠ 0 → (ubi_ro_mode ubi).1.ro_mode = ubi.ro_mode) ∧
    (∀ n : Nat, (ubi_ro_mode_calls (n + 1) ubi).ro_mode ≠ 0) := by
  have h1 : (ubi_ro_mode ubi).1.ro_mode ≠ 0 := by
    by_cases h : ubi.ro_mode = 0
    · simp [ubi_ro_mode, h]
    · simp [ubi_ro_mode, h]
  refine ⟨h1, ?_, ?_, ?_⟩
  · intro h; simp [ubi_ro_mode, h]
  · intro h; simp [ubi_ro_mode, h]
  · intro n
    simp only [ubi_ro_mode_calls]
    exact ubi_ro_mode_calls_ne_zero n _ h1

/-- Witness of C1 on a zeroed device and on one already read-only. -/
theorem ubi_ro_mode_latch_witness :
    (ubi_ro_mode zero_device).1.ro_mode = 1 ∧
    (ubi_ro_mode { zero_device with ro_mode := 5 }).1.ro_mode = 5 ∧
    (ubi_ro_mode_calls 3 zero_device).ro_mode ≠ 0 :=
  ⟨(ubi_ro_mode_latch zero_device).2.1 rfl,
   (ubi_ro_mode_latch { zero_device with ro_mode := 5 }).2.2.1 (by decide),
   (ubi_ro_mode_latch zero_device).2.2.2 2⟩

/-- C2: for an offset that is not negative, `ubi_io_write_data` returns exactly
what `ubi_io_write` returns for the offset `offset + ubi->leb_start` (C `int`
addition), every other argument passed through unchanged; as long as the sum
fits an `int`, that offset is `leb_start + offset`.  The assertion macro is
assumed to do nothing when the asserted expression holds. -/
theorem ubi_io_write_data_eq_ubi_io_write {σ ρ : Type} (ubi_assert : Bool → σ → σ)
    (ubi_io_write : ubi_device → Ptr → Int → Int → Int → Int → σ → ρ)
    (ubi : ubi_device) (buf : Ptr) (pnum offset len mode : Int) (s : σ)
    (h_assert : ∀ t, ubi_assert true t = t) (h_offset : 0 ≤ offset) :
    ubi_io_write_data ubi_assert ubi_io_write ubi buf pnum offset len mode s =
      ubi_io_write ubi buf pnum (int_add offset ubi.leb_start) len mode s ∧
    (INT_MIN ≤ offset + ubi.leb_start → offset + ubi.leb_start ≤ INT_MAX →
      ubi_io_write_data ubi_assert ubi_io_write ubi buf pnum offset len mode s =
        ubi_io_write ubi buf pnum (ubi.leb_start + offset) len mode s) := by
  have h1 : ubi_io_write_data ubi_assert ubi_io_write ubi buf pnum offset len mode s =
      ubi_io_write ubi buf pnum (int_add offset ubi.leb_start) len mode s := by
    simp [ubi_io_write_data, h_offset, h_assert]
  refine ⟨h1, ?_⟩
  intro hlo hhi
  rw [h1, int_add, wrap_int_of_in_range _ hlo hhi, add_comm]

/-- Witness of C2: a write at LEB offset 512 on a device whose LEBs start at
4096 reaches `ubi_io_write` with PEB offset 4608. -/
theorem ubi_io_write_data_eq_ubi_io_write_witness :
    ubi_io_write_data (fun b (t : Nat) => if b then t else t + 1)
      (fun _ _ _ off _ _ (t : Nat) => (off, t))
      { zero_device with leb_start := 4096 } 0 3 512 64 UBI_IO_MODE_SLC 0 =
    ((4608 : Int), 0) :=
  ((ubi_io_write_data_eq_ubi_io_write (fun b (t : Nat) => if b then t else t + 1)
      (fun _ _ _ off _ _ (t : Nat) => (off, t))
      { zero_device with leb_start := 4096 } 0 3 512 64 UBI_IO_MODE_SLC 0
      (fun _ => rfl) (by decide)).2 (by decide) (by decide)).trans rfl

/-- C3: for an offset that is not negative, `ubi_io_read_data` is
`ubi_io_read` at the offset `offset + ubi->leb_start` (C `int` addition), every
other argument passed through unchanged; as long as the sum fits an `int`,
that offset is `leb_start + offset`.  The assertion macro is assumed to do
nothing when the asserted expression holds. -/
theorem ubi_io_read_data_eq_ubi_io_read {σ ρ : Type} (ubi_assert : Bool → σ → σ)
    (ubi_io_read : ubi_device → Ptr → Int → Int → Int → Int → σ → ρ)
    (ubi : ubi_device) (buf : Ptr) (pnum offset len mode : Int) (s : σ)
    (h_assert : ∀ t, ubi_assert true t = t) (h_offset : 0 ≤ offset) :
    ubi_io_read_data ubi_assert ubi_io_read ubi buf pnum offset len mode s =
      ubi_io_read ubi buf pnum (int_add offset ubi.leb_start) len mode s ∧
    (INT_MIN ≤ offset + ubi.leb_start → offset + ubi.leb_start ≤ INT_MAX →
      ubi_io_read_data ubi_assert ubi_io_read ubi buf pnum offset len mode s =
        ubi_io_read ubi buf pnum (ubi.leb_start + offset) len mode s) := by
  have h1 : ubi_io_read_data ubi_assert ubi_io_read ubi buf pnum offset len mode s =
      ubi_io_read ubi buf pnum (int_add offset ubi.leb_start) len mode s := by
    simp [ubi_io_read_data, h_offset, h_assert]
  refine ⟨h1, ?_⟩
  intro hlo hhi
  rw [h1, int_add, wrap_int_of_in_range _ hlo hhi, add_comm]

/-- Witness of C3: a read at LEB offset 0 on a device whose LEBs start at 2048
reaches `ubi_io_read` with PEB offset 2048, in the environment it was called
in. -/
theorem ubi_io_read_data_eq_ubi_io_read_witness :
    ubi_io_read_data (fun b (t : List Event) => if b then t else Event.dump_stack :: t)
      (fun _ _ pnum off _ _ (t : List Event) => (pnum, off, t))
      { zero_device with leb_start := 2048 } 0 9 0 128 UBI_IO_MODE_NORMAL [] =
    ((9 : Int), (2048 : Int), []) :=
  ((ubi_io_read_data_eq_ubi_io_read
      (fun b (t : List Event) => if b then t else Event.dump_stack :: t)
      (fun _ _ pnum off _ _ (t : List Event) => (pnum, off, t))
      { zero_device with leb_start := 2048 } 0 9 0 128 UBI_IO_MODE_NORMAL []
      (fun _ => rfl) (by decide)).2 (by decide) (by decide)).trans rfl

/-- C4: the six return codes of `ubi_eba_copy_leb` are pairwise distinct and
strictly positive, hence each differs from success (0) and from every negative
error code. -/
theorem move_codes_distinct_positive :
    List.Pairwise (fun a b : Int => a ≠ b)
      [MOVE_CANCEL_RACE, MOVE_SOURCE_RD_ERR, MOVE_TARGET_RD_ERR,
        MOVE_TARGET_WR_ERR, MOVE_TARGET_BITFLIPS, MOVE_RETRY] ∧
    ∀ c ∈ [MOVE_CANCEL_RACE, MOVE_SOURCE_RD_ERR, MOVE_TARGET_RD_ERR,
        MOVE_TARGET_WR_ERR, MOVE_TARGET_BITFLIPS, MOVE_RETRY],
      0 < c ∧ c ≠ 0 ∧ ∀ err : Int, err < 0 → c ≠ err := by
  refine ⟨by decide, ?_⟩
  intro c hc
  have hpos : 0 < c := by
    simp only [List.mem_cons, List.mem_singleton, List.not_mem_nil, or_false] at hc
    rcases hc with h | h | h | h | h | h <;> subst h <;> decide
  exact ⟨hpos, by omega, fun err herr => by omega⟩

/-- Witness of C4: `MOVE_RETRY` is not the error code -22. -/
theorem move_codes_distinct_positive_witness : MOVE_RETRY ≠ -22 :=
  (move_codes_distinct_positive.2 MOVE_RETRY (by decide)).2.2 (-22) (by decide)

/-- C6: `ubi_is_fm_vol(vol_id)` is true if and only if `vol_id` is
`UBI_FM_SB_VOLUME_ID` or `UBI_FM_DATA_VOLUME_ID`; it is false for every other
volume ID, and, the two fastmap IDs being internal volume IDs, false for every
user volume ID (an ID below `UBI_INTERNAL_VOL_START`). -/
theorem ubi_is_fm_vol_iff (K : ubi_consts) (vol_id : Int) :
    (ubi_is_fm_vol K vol_id = true ↔
      vol_id = K.UBI_FM_SB_VOLUME_ID ∨ vol_id = K.UBI_FM_DATA_VOLUME_ID) ∧
    (vol_id ≠ K.UBI_FM_SB_VOLUME_ID → vol_id ≠ K.UBI_FM_DATA_VOLUME_ID →
      ubi_is_fm_vol K vol_id = false) ∧
    (K.UBI_INTERNAL_VOL_START ≤ K.UBI_FM_SB_VOLUME_ID →
      K.UBI_INTERNAL_VOL_START ≤ K.UBI_FM_DATA_VOLUME_ID →
      vol_id < K.UBI_INTERNAL_VOL_START → ubi_is_fm_vol K vol_id = false) := by
  refine ⟨?_, ?_, ?_⟩
  · simp [ubi_is_fm_vol]
  · intro h1 h2
    simp [ubi_is_fm_vol, h1, h2]
  · intro h1 h2 h3
    have e1 : vol_id ≠ K.UBI_FM_SB_VOLUME_ID := by omega
    have e2 : vol_id ≠ K.UBI_FM_DATA_VOLUME_ID := by omega
    simp [ubi_is_fm_vol, e1, e2]

/-- Witness of C6: user volume 5 is not a fastmap volume, nor is the layout
volume, for the sample constants. -/
theorem ubi_is_fm_vol_iff_witness :
    ubi_is_fm_vol sample_consts 5 = false ∧
    ubi_is_fm_vol sample_consts sample_consts.UBI_INTERNAL_VOL_START = false :=
  ⟨(ubi_is_fm_vol_iff sample_consts 5).2.2 (by decide) (by decide) (by decide),
   (ubi_is_fm_vol_iff sample_consts sample_consts.UBI_INTERNAL_VOL_START).2.1
     (by decide) (by decide)⟩

/-- C7: `ubi_vol_mode_to_io_mode` returns `UBI_IO_MODE_SLC` exactly for
`UBI_VOL_MODE_SLC`, `UBI_IO_MODE_NORMAL` exactly for `UBI_VOL_MODE_NORMAL` and
`UBI_VOL_MODE_MLC_SAFE`, and `-EINVAL` for every other integer; the result is
negative if and only if the argument is none of the three volume modes.  The
case labels of the switch are distinct and `EINVAL` is positive. -/
theorem ubi_vol_mode_to_io_mode_spec (K : ubi_consts) (vol_mode : Int)
    (h_einval : 0 < K.EINVAL)
    (h_slc_normal : K.UBI_VOL_MODE_SLC ≠ K.UBI_VOL_MODE_NORMAL)
    (h_slc_mlc : K.UBI_VOL_MODE_SLC ≠ K.UBI_VOL_MODE_MLC_SAFE) :
    (ubi_vol_mode_to_io_mode K vol_mode = UBI_IO_MODE_SLC ↔
      vol_mode = K.UBI_VOL_MODE_SLC) ∧
    (ubi_vol_mode_to_io_mode K vol_mode = UBI_IO_MODE_NORMAL ↔
      vol_mode = K.UBI_VOL_MODE_NORMAL ∨ vol_mode = K.UBI_VOL_MODE_MLC_SAFE) ∧
    (vol_mode ≠ K.UBI_VOL_MODE_NORMAL → vol_mode ≠ K.UBI_VOL_MODE_SLC →
      vol_mode ≠ K.UBI_VOL_MODE_MLC_SAFE →
      ubi_vol_mode_to_io_mode K vol_mode = -K.EINVAL) ∧
    (ubi_vol_mode_to_io_mode K vol_mode < 0 ↔
      ¬ (vol_mode = K.UBI_VOL_MODE_NORMAL ∨ vol_mode = K.UBI_VOL_MODE_SLC ∨
        vol_mode = K.UBI_VOL_MODE_MLC_SAFE)) := by
  unfold ubi_vol_mode_to_io_mode UBI_IO_MODE_SLC UBI_IO_MODE_NORMAL
  by_cases hn : vol_mode = K.UBI_VOL_MODE_NORMAL ∨ vol_mode = K.UBI_VOL_MODE_MLC_SAFE
  · have hs : vol_mode ≠ K.UBI_VOL_MODE_SLC := by
      rcases hn with h | h <;> rw [h] <;> exact fun e => by simp_all
    simp only [if_pos hn]
    refine ⟨?_, ?_, ?_, ?_⟩
    · constructor
      · intro h; omega
      · intro h; exact absurd h hs
    · simp [hn]
    · intro a _ c
      rcases hn with h | h
      · exact absurd h a
      · exact absurd h c
    · constructor
      · intro h; omega
      · intro h
        exact absurd (by rcases hn with h1 | h1; exact Or.inl h1; exact Or.inr (Or.inr h1)) h
  · simp only [if_neg hn]
    have hn1 : vol_mode ≠ K.UBI_VOL_MODE_NORMAL := fun e => hn (Or.inl e)
    have hn2 : vol_mode ≠ K.UBI_VOL_MODE_MLC_SAFE := fun e => hn (Or.inr e)
    by_cases hs : vol_mode = K.UBI_VOL_MODE_SLC
    · simp only [if_pos hs]
      refine ⟨?_, ?_, ?_, ?_⟩
      · simp [hs]
      · constructor
        · intro h; omega
        · intro h; exact absurd h hn
      · intro _ b _; exact absurd hs b
      · constructor
        · intro h; omega
        · intro h; exact absurd (Or.inr (Or.inl hs)) h
    · simp only [if_neg hs]
      refine ⟨?_, ?_, ?_, ?_⟩
      · constructor
        · intro h; omega
        · intro h; exact absurd h hs
      · constructor
        · intro h; omega
        · intro h; exact absurd h hn
      · intro _ _ _; trivial
      · constructor
        · intro _ h
          rcases h with h | h | h
          · exact hn1 h
          · exact hs h
          · exact hn2 h
        · intro _; omega

/-- Witness of C7: with the sample constants, mode 7 is rejected with -22. -/
theorem ubi_vol_mode_to_io_mode_spec_witness :
    ubi_vol_mode_to_io_mode sample_consts 7 = -22 :=
  (ubi_vol_mode_to_io_mode_spec sample_consts 7 (by decide) (by decide) (by decide)).2.2.1
    (by decide) (by decide) (by decide)

/-- C8: the volume mode survives the trip through the VID header.  For a
volume whose mode is one of the three volume modes, a VID header whose
`vol_mode` is `ubi_vol_mode_to_vid_hdr(vol)` makes `ubi_vol_mode_from_vid_hdr`
return `vol->vol_mode`, given that the three `UBI_VID_MODE_*` constants are
pairwise distinct (and are values of the `u8` the function returns). -/
theorem vol_mode_vid_hdr_round_trip (K : ubi_consts) (vol : ubi_volume)
    (vid_hdr : ubi_vid_hdr)
    (h_ns : K.UBI_VID_MODE_NORMAL ≠ K.UBI_VID_MODE_SLC)
    (h_nm : K.UBI_VID_MODE_NORMAL ≠ K.UBI_VID_MODE_MLC_SAFE)
    (h_sm : K.UBI_VID_MODE_SLC ≠ K.UBI_VID_MODE_MLC_SAFE)
    (h_n8 : 0 ≤ K.UBI_VID_MODE_NORMAL ∧ K.UBI_VID_MODE_NORMAL < 256)
    (h_s8 : 0 ≤ K.UBI_VID_MODE_SLC ∧ K.UBI_VID_MODE_SLC < 256)
    (h_m8 : 0 ≤ K.UBI_VID_MODE_MLC_SAFE ∧ K.UBI_VID_MODE_MLC_SAFE < 256)
    (h_mode : vol.vol_mode = K.UBI_VOL_MODE_NORMAL ∨
      vol.vol_mode = K.UBI_VOL_MODE_SLC ∨ vol.vol_mode = K.UBI_VOL_MODE_MLC_SAFE)
    (h_hdr : vid_hdr.vol_mode = ubi_vol_mode_to_vid_hdr K vol) :
    ubi_vol_mode_from_vid_hdr K vid_hdr = vol.vol_mode := by
  have e_n : to_u8 K.UBI_VID_MODE_NORMAL = K.UBI_VID_MODE_NORMAL := by
    unfold to_u8; omega
  have e_s : to_u8 K.UBI_VID_MODE_SLC = K.UBI_VID_MODE_SLC := by
    unfold to_u8; omega
  have e_m : to_u8 K.UBI_VID_MODE_MLC_SAFE = K.UBI_VID_MODE_MLC_SAFE := by
    unfold to_u8; omega
  have e_hdr : vid_hdr.vol_mode =
      (if vol.vol_mode = K.UBI_VOL_MODE_NORMAL then K.UBI_VID_MODE_NORMAL
       else if vol.vol_mode = K.UBI_VOL_MODE_SLC then K.UBI_VID_MODE_SLC
       else if vol.vol_mode = K.UBI_VOL_MODE_MLC_SAFE then K.UBI_VID_MODE_MLC_SAFE
       else to_u8 (-K.EINVAL)) := by
    rw [h_hdr, ubi_vol_mode_to_vid_hdr, e_n, e_s, e_m]
  unfold ubi_vol_mode_from_vid_hdr
  by_cases c1 : vol.vol_mode = K.UBI_VOL_MODE_NORMAL
  · rw [if_pos c1] at e_hdr
    rw [if_pos e_hdr, c1]
  · rw [if_neg c1] at e_hdr
    by_cases c2 : vol.vol_mode = K.UBI_VOL_MODE_SLC
    · rw [if_pos c2] at e_hdr
      have n1 : vid_hdr.vol_mode ≠ K.UBI_VID_MODE_NORMAL := by
        rw [e_hdr]; exact h_ns.symm
      rw [if_neg n1, if_pos e_hdr, c2]
    · rw [if_neg c2] at e_hdr
      have c3 : vol.vol_mode = K.UBI_VOL_MODE_MLC_SAFE := by
        rcases h_mode with h | h | h
        · exact absurd h c1
        · exact absurd h c2
        · exact h
      rw [if_pos c3] at e_hdr
      have n1 : vid_hdr.vol_mode ≠ K.UBI_VID_MODE_NORMAL := by
        rw [e_hdr]; exact h_nm.symm
      have n2 : vid_hdr.vol_mode ≠ K.UBI_VID_MODE_SLC := by
        rw [e_hdr]; exact h_sm.symm
      rw [if_neg n1, if_neg n2, if_pos e_hdr, c3]

/-- Witness of C8: an MLC-safe volume, with the sample constants. -/
theorem vol_mode_vid_hdr_round_trip_witness :
    ubi_vol_mode_from_vid_hdr sample_consts { zero_vid_hdr with vol_mode := 2 } =
      sample_consts.UBI_VOL_MODE_MLC_SAFE :=
  vol_mode_vid_hdr_round_trip sample_consts { zero_volume with vol_mode := 2 }
    { zero_vid_hdr with vol_mode := 2 }
    (by decide) (by decide) (by decide) (by decide) (by decide) (by decide)
    (by decide) (by decide)

/-- C9 fails on the code for MLC-safe headers: for a VID header whose
`vol_mode` is `UBI_VID_MODE_MLC_SAFE`, `ubi_io_mode_from_vid_hdr` returns
`-EINVAL`, while `ubi_vol_mode_to_io_mode(ubi_vol_mode_from_vid_hdr(h))` is
`UBI_IO_MODE_NORMAL`; the two differ.  The case labels are distinct and
`EINVAL` is positive. -/
theorem ubi_io_mode_from_vid_hdr_mlc_safe_einval (K : ubi_consts)
    (vid_hdr : ubi_vid_hdr) (h_einval : 0 < K.EINVAL)
    (h_mn : K.UBI_VID_MODE_MLC_SAFE ≠ K.UBI_VID_MODE_NORMAL)
    (h_ms : K.UBI_VID_MODE_MLC_SAFE ≠ K.UBI_VID_MODE_SLC)
    (h_mode : vid_hdr.vol_mode = K.UBI_VID_MODE_MLC_SAFE) :
    ubi_io_mode_from_vid_hdr K vid_hdr = -K.EINVAL ∧
    ubi_vol_mode_to_io_mode K (ubi_vol_mode_from_vid_hdr K vid_hdr) =
      UBI_IO_MODE_NORMAL ∧
    ubi_io_mode_from_vid_hdr K vid_hdr ≠
      ubi_vol_mode_to_io_mode K (ubi_vol_mode_from_vid_hdr K vid_hdr) := by
  have a : ubi_io_mode_from_vid_hdr K vid_hdr = -K.EINVAL := by
    simp [ubi_io_mode_from_vid_hdr, h_mode, h_mn, h_ms]
  have b : ubi_vol_mode_to_io_mode K (ubi_vol_mode_from_vid_hdr K vid_hdr) =
      UBI_IO_MODE_NORMAL := by
    simp [ubi_vol_mode_from_vid_hdr, ubi_vol_mode_to_io_mode, h_mode, h_mn, h_ms]
  refine ⟨a, b, ?_⟩
  rw [a, b]
  unfold UBI_IO_MODE_NORMAL
  omega

/-- Witness of the C9 divergence with the sample constants: -22 against 0. -/
theorem ubi_io_mode_from_vid_hdr_mlc_safe_einval_witness :
    ubi_io_mode_from_vid_hdr sample_consts { zero_vid_hdr with vol_mode := 2 } = -22 ∧
    ubi_vol_mode_to_io_mode sample_consts
      (ubi_vol_mode_from_vid_hdr sample_consts { zero_vid_hdr with vol_mode := 2 }) = 0 :=
  ⟨(ubi_io_mode_from_vid_hdr_mlc_safe_einval sample_consts
      { zero_vid_hdr with vol_mode := 2 } (by decide) (by decide) (by decide) rfl).1,
   (ubi_io_mode_from_vid_hdr_mlc_safe_einval sample_consts
      { zero_vid_hdr with vol_mode := 2 } (by decide) (by decide) (by decide) rfl).2.1⟩

/-- C10: `UBI_LEB_UNMAPPED` has the same value as `UBI_ALL`, -1, and is
therefore no PEB number: every `pnum` with `0 <= pnum < peb_count` differs from
it, whatever `peb_count` is. -/
theorem ubi_leb_unmapped_not_a_pnum :
    UBI_LEB_UNMAPPED = UBI_ALL ∧ UBI_LEB_UNMAPPED = -1 ∧
    ∀ peb_count pnum : Int, 0 ≤ pnum → pnum < peb_count → pnum ≠ UBI_LEB_UNMAPPED := by
  refine ⟨rfl, rfl, ?_⟩
  intro peb_count pnum h0 _
  unfold UBI_LEB_UNMAPPED
  omega

/-- Witness of C10: PEB 0 of a one-PEB device is not the un-mapped marker. -/
theorem ubi_leb_unmapped_not_a_pnum_witness : (0 : Int) ≠ UBI_LEB_UNMAPPED :=
  ubi_leb_unmapped_not_a_pnum.2.2 1 0 (by decide) (by decide)

/-- What the search loop of `ubi_find_fm_block` computes from counter `i` on a
layout whose used slots point to entries: the pointer in the first slot at or
after `i` whose entry has the PEB number, or NULL when there is none.  `n`
bounds the number of slots left, and any fuel above `n` is enough. -/
theorem ubi_find_fm_block_loop_spec (wl_mem : Ptr → Option ubi_wl_entry)
    (fm : ubi_fastmap_layout) (pnum : Int)
    (h_max : fm.used_blocks ≤ INT_MAX)
    (h_ent : ∀ i : Nat, (i : Int) < fm.used_blocks →
      ∃ p e, fm.e.get? i = some p ∧ p ≠ NULL ∧ wl_mem p = some e) :
    ∀ (n i fuel : Nat), fm.used_blocks ≤ (i : Int) + n → n < fuel →
      (∃ j p e, i ≤ j ∧ (j : Int) < fm.used_blocks ∧ fm.e.get? j = some p ∧
          p ≠ NULL ∧ wl_mem p = some e ∧ e.pnum = pnum ∧
          (∀ k p1 e1, i ≤ k → k < j → fm.e.get? k = some p1 →
            wl_mem p1 = some e1 → e1.pnum ≠ pnum) ∧
          ubi_find_fm_block_loop wl_mem fm pnum fuel i = Except.ok p) ∨
      ((∀ k p1 e1, i ≤ k → (k : Int) < fm.used_blocks → fm.e.get? k = some p1 →
            wl_mem p1 = some e1 → e1.pnum ≠ pnum) ∧
          ubi_find_fm_block_loop wl_mem fm pnum fuel i = Except.ok NULL) := by
  intro n
  induction n with
  | zero =>
    intro i fuel hle hlt
    obtain ⟨f, rfl⟩ : ∃ f, fuel = f + 1 := ⟨fuel - 1, by omega⟩
    right
    refine ⟨?_, ?_⟩
    · intro k _ _ hik hk
      omega
    · have hnot : ¬ ((i : Int) < fm.used_blocks) := by omega
      simp [ubi_find_fm_block_loop, hnot]
  | succ m ih =>
    intro i fuel hle hlt
    obtain ⟨f, rfl⟩ : ∃ f, fuel = f + 1 := ⟨fuel - 1, by omega⟩
    by_cases hi : (i : Int) < fm.used_blocks
    · obtain ⟨p, e, hp, hnn, he⟩ := h_ent i hi
      have hget : array_get fm.e (i : Int) = Except.ok p := by
        have hneg : ¬ ((i : Int) < 0) := by omega
        have hnat : (i : Int).toNat = i := by omega
        unfold array_get
        rw [if_neg hneg, hnat, hp]
      have hder : deref_wl wl_mem p = Except.ok e := by
        simp [deref_wl, hnn, he]
      by_cases hpn : e.pnum = pnum
      · left
        refine ⟨i, p, e, le_refl _, hi, hp, hnn, he, hpn, ?_, ?_⟩
        · intro k _ _ h1 h2
          omega
        · simp [ubi_find_fm_block_loop, hi, hget, hder, hpn]
      · have hstep : int_add (i : Int) 1 = ((i + 1 : Nat) : Int) := by
          unfold int_add
          rw [wrap_int_of_in_range]
          · push_cast
            rfl
          · unfold INT_MIN
            omega
          · unfold INT_MAX at *
            omega
        have hloop : ubi_find_fm_block_loop wl_mem fm pnum (f + 1) (i : Int) =
            ubi_find_fm_block_loop wl_mem fm pnum f ((i + 1 : Nat) : Int) := by
          rw [← hstep]
          simp [ubi_find_fm_block_loop, hi, hget, hder, hpn]
        have hfirst : ∀ k p1 e1, k = i → fm.e.get? k = some p1 →
            wl_mem p1 = some e1 → e1.pnum ≠ pnum := by
          intro k p1 e1 hk hg hw
          subst hk
          rw [hp] at hg
          cases hg
          rw [he] at hw
          cases hw
          exact hpn
        rcases ih (i + 1) f (by push_cast; omega) (by omega) with
          ⟨j, p2, e2, hij, hj, hp2, hnn2, he2, hpn2, hmin, hres⟩ | ⟨hall, hres⟩
        · left
          refine ⟨j, p2, e2, by omega, hj, hp2, hnn2, he2, hpn2, ?_, by rw [hloop]; exact hres⟩
          intro k p1 e1 hk1 hk2 hg hw
          by_cases hki : k = i
          · exact hfirst k p1 e1 hki hg hw
          · exact hmin k p1 e1 (by omega) hk2 hg hw
        · right
          refine ⟨?_, by rw [hloop]; exact hres⟩
          intro k p1 e1 hk1 hk2 hg hw
          by_cases hki : k = i
          · exact hfirst k p1 e1 hki hg hw
          · exact hall k p1 e1 (by omega) hk2 hg hw
    · right
      refine ⟨?_, ?_⟩
      · intro k _ _ hik hk
        omega
      · simp [ubi_find_fm_block_loop, hi]

/-- C5: on a device whose fastmap is well formed, `ubi_find_fm_block` returns,
and it returns a wear-leveling entry (a non-NULL pointer, to an entry with this
PEB number) if and only if `pnum` relates to the current fastmap: `ubi->fm` is
non-NULL and some `i` below `used_blocks` has `ubi->fm->e[i]->pnum == pnum`.
Without a fastmap, and with `used_blocks <= 0`, it returns NULL. -/
theorem ubi_find_fm_block_iff (fm_mem : Ptr → Option ubi_fastmap_layout)
    (wl_mem : Ptr → Option ubi_wl_entry) (ubi : ubi_device) (pnum : Int) :
    (fm_well_formed fm_mem wl_mem ubi →
      ∃ p, ubi_find_fm_block fm_mem wl_mem ubi pnum = Except.ok p ∧
        (p ≠ NULL ↔ pnum_in_current_fastmap fm_mem wl_mem ubi pnum) ∧
        (p ≠ NULL → ∃ e, wl_mem p = some e ∧ e.pnum = pnum)) ∧
    (ubi.fm = NULL → ubi_find_fm_block fm_mem wl_mem ubi pnum = Except.ok NULL) ∧
    (∀ fm, fm_mem ubi.fm = some fm → fm.used_blocks ≤ 0 →
      ubi_find_fm_block fm_mem wl_mem ubi pnum = Except.ok NULL) := by
  refine ⟨?_, ?_, ?_⟩
  · intro hwf
    by_cases hfm : ubi.fm = NULL
    · refine ⟨NULL, by simp [ubi_find_fm_block, hfm], ?_, fun h => absurd rfl h⟩
      constructor
      · intro h
        exact absurd rfl h
      · intro h
        exact absurd hfm h.1
    · obtain ⟨fm, hmem, hmax, hent⟩ := hwf hfm
      have hrun : ubi_find_fm_block fm_mem wl_mem ubi pnum =
          ubi_find_fm_block_loop wl_mem fm pnum (fm.used_blocks.toNat + 1) ((0 : Nat) : Int) := by
        simp [ubi_find_fm_block, hfm, hmem]
      rcases ubi_find_fm_block_loop_spec wl_mem fm pnum hmax hent
          fm.used_blocks.toNat 0 (fm.used_blocks.toNat + 1) (by omega) (by omega) with
        ⟨j, p, e, _, hj, hp, hnn, he, hpn, _, hres⟩ | ⟨hall, hres⟩
      · refine ⟨p, by rw [hrun]; exact hres, ?_, fun _ => ⟨e, he, hpn⟩⟩
        constructor
        · intro _
          exact ⟨hfm, fm, hmem, j, hj, p, e, hp, he, hpn⟩
        · intro _
          exact hnn
      · refine ⟨NULL, by rw [hrun]; exact hres, ?_, fun h => absurd rfl h⟩
        constructor
        · intro h
          exact absurd rfl h
        · rintro ⟨_, fm2, hmem2, i, hi, p1, e1, hg, hw, hpn⟩
          rw [hmem] at hmem2
          cases hmem2
          exact absurd hpn (hall i p1 e1 (Nat.zero_le _) hi hg hw)
  · intro hfm
    simp [ubi_find_fm_block, hfm]
  · intro fm hmem hle
    by_cases hfm : ubi.fm = NULL
    · simp [ubi_find_fm_block, hfm]
    · have hnot : ¬ ((0 : Int) < fm.used_blocks) := by omega
      simp [ubi_find_fm_block, hfm, hmem, ubi_find_fm_block_loop, hnot]

/-- The sample fastmap is well formed: its three used slots point to
entries. -/
theorem sample_fm_well_formed :
    fm_well_formed sample_fm_mem sample_wl_mem sample_fm_device := by
  intro _
  refine ⟨sample_fm, rfl, by decide, ?_⟩
  intro i hi
  have hi3 : (i : Int) < 3 := hi
  have hcases : i = 0 ∨ i = 1 ∨ i = 2 := by omega
  rcases hcases with h | h | h
  · subst h
    exact ⟨10, ⟨⟨[]⟩, 0, 40⟩, rfl, by decide, rfl⟩
  · subst h
    exact ⟨11, ⟨⟨[]⟩, 0, 41⟩, rfl, by decide, rfl⟩
  · subst h
    exact ⟨12, ⟨⟨[]⟩, 0, 42⟩, rfl, by decide, rfl⟩

/-- Witness of C5 on the sample fastmap: PEB 41 is found in slot 1 (address
11), and the equivalence holds for it. -/
theorem ubi_find_fm_block_iff_witness :
    ubi_find_fm_block sample_fm_mem sample_wl_mem sample_fm_device 41 = Except.ok 11 ∧
    ubi_find_fm_block sample_fm_mem sample_wl_mem sample_fm_device 50 = Except.ok NULL ∧
    ∃ p, ubi_find_fm_block sample_fm_mem sample_wl_mem sample_fm_device 41 = Except.ok p ∧
      (p ≠ NULL ↔ pnum_in_current_fastmap sample_fm_mem sample_wl_mem sample_fm_device 41) ∧
      (p ≠ NULL → ∃ e, sample_wl_mem p = some e ∧ e.pnum = 41) :=
  ⟨rfl, rfl,
   (ubi_find_fm_block_iff sample_fm_mem sample_wl_mem sample_fm_device 41).1
     sample_fm_well_formed⟩

/-- What the initialisation loop of `ubi_alloc_pdesc` computes from counter
`i` on an array with room for `max_lebs_per_peb` slots: it returns, the array
keeps its length, every slot from `i` up to `max_lebs_per_peb` holds
`UBI_UNKNOWN` and every other slot is untouched.  `n` bounds the number of
slots left, and any fuel above `n` is enough. -/
theorem ubi_alloc_pdesc_loop_spec (m : Int) (h_max : m ≤ INT_MAX) :
    ∀ (n i fuel : Nat) (lnums : List Int), m ≤ (i : Int) + n → n < fuel →
      m ≤ (lnums.length : Int) →
      ∃ l, ubi_alloc_pdesc_loop m fuel i lnums = Except.ok l ∧
        l.length = lnums.length ∧
        (∀ k : Nat, i ≤ k → (k : Int) < m → l[k]? = some UBI_UNKNOWN) ∧
        (∀ k : Nat, k < i ∨ m ≤ (k : Int) → l[k]? = lnums[k]?) := by
  intro n
  induction n with
  | zero =>
    intro i fuel lnums hle hlt _
    obtain ⟨f, rfl⟩ : ∃ f, fuel = f + 1 := ⟨fuel - 1, by omega⟩
    have hnot : ¬ ((i : Int) < m) := by omega
    refine ⟨lnums, by simp [ubi_alloc_pdesc_loop, hnot], rfl, ?_, fun _ _ => rfl⟩
    intro k hk1 hk2
    omega
  | succ j ih =>
    intro i fuel lnums hle hlt hlen
    obtain ⟨f, rfl⟩ : ∃ f, fuel = f + 1 := ⟨fuel - 1, by omega⟩
    by_cases hi : (i : Int) < m
    · have hneg : ¬ ((i : Int) < 0) := by omega
      have hnat : (i : Int).toNat = i := by omega
      have hil : i < lnums.length := by omega
      have hset : array_set lnums (i : Int) UBI_UNKNOWN =
          Except.ok (lnums.set i UBI_UNKNOWN) := by
        unfold array_set
        rw [if_neg hneg, hnat, if_pos hil]
      have hstep : int_add (i : Int) 1 = ((i + 1 : Nat) : Int) := by
        unfold int_add
        rw [wrap_int_of_in_range]
        · push_cast
          rfl
        · unfold INT_MIN
          omega
        · unfold INT_MAX at *
          omega
      have hloop : ubi_alloc_pdesc_loop m (f + 1) (i : Int) lnums =
          ubi_alloc_pdesc_loop m f ((i + 1 : Nat) : Int) (lnums.set i UBI_UNKNOWN) := by
        rw [← hstep]
        simp [ubi_alloc_pdesc_loop, hi, hset]
      obtain ⟨l, hl, hlen1, hnew, hold⟩ :=
        ih (i + 1) f (lnums.set i UBI_UNKNOWN) (by push_cast; omega) (by omega)
          (by simpa using hlen)
      refine ⟨l, by rw [hloop]; exact hl, by simpa using hlen1, ?_, ?_⟩
      · intro k hk1 hk2
        by_cases hki : k = i
        · subst hki
          rw [hold k (Or.inl (Nat.lt_succ_self k))]
          simp [hil]
        · exact hnew k (by omega) hk2
      · intro k hk
        have hk1 : k < i + 1 ∨ m ≤ (k : Int) := by omega
        rw [hold k hk1]
        have hne : i ≠ k := by omega
        simp [List.getElem?_set_ne hne]
    · refine ⟨lnums, by simp [ubi_alloc_pdesc_loop, hi], rfl, ?_, fun _ _ => rfl⟩
      intro k hk1 hk2
      omega

/-- C11: a PEB descriptor returned by a successful `ubi_alloc_pdesc` is not
attached to any volume: its `vol_id` is `UBI_ALL` (the code stores
`UBI_UNKNOWN`, the same value).  The allocation does succeed whenever
`kmalloc` hands out an object with room for `max_lebs_per_peb` slots. -/
theorem ubi_alloc_pdesc_vol_id (kmalloc : Int → Nat → Option ubi_peb_desc)
    (ubi : ubi_device) (gfp_flags : Nat) :
    (∀ d, ubi_alloc_pdesc kmalloc ubi gfp_flags = Except.ok (some d) →
      d.vol_id = UBI_ALL ∧ d.vol_id = UBI_UNKNOWN) ∧
    (∀ d0, kmalloc (wrap_int (sizeof_ubi_peb_desc + sizeof_int * ubi.max_lebs_per_peb))
        gfp_flags = some d0 →
      ubi.max_lebs_per_peb ≤ INT_MAX →
      ubi.max_lebs_per_peb ≤ (d0.lnums.length : Int) →
      ∃ d, ubi_alloc_pdesc kmalloc ubi gfp_flags = Except.ok (some d) ∧
        d.vol_id = UBI_ALL) := by
  constructor
  · intro d hd
    unfold ubi_alloc_pdesc at hd
    simp only at hd
    split at hd
    · cases hd
    · split at hd
      · cases hd
      · injection hd with h1
        injection h1 with h2
        subst h2
        exact ⟨rfl, rfl⟩
  · intro d0 hk h_int hlen
    obtain ⟨l, hl, _, _, _⟩ := ubi_alloc_pdesc_loop_spec ubi.max_lebs_per_peb h_int
      ubi.max_lebs_per_peb.toNat 0 (ubi.max_lebs_per_peb.toNat + 1) d0.lnums
      (by omega) (by omega) hlen
    refine ⟨{ pnum := UBI_UNKNOWN, vol_id := UBI_UNKNOWN, lnums := l }, ?_, rfl⟩
    unfold ubi_alloc_pdesc
    simp only [hk]
    have hl0 : ubi_alloc_pdesc_loop ubi.max_lebs_per_peb
        (ubi.max_lebs_per_peb.toNat + 1) 0 d0.lnums = Except.ok l := by
      simpa using hl
    rw [hl0]

/-- Witness of C11: with an allocator handing out four slots and a device with
two LEBs per PEB, the descriptor comes back with `vol_id = UBI_ALL`. -/
theorem ubi_alloc_pdesc_vol_id_witness :
    ubi_alloc_pdesc sample_kmalloc { zero_device with max_lebs_per_peb := 2 } 0 =
      Except.ok (some ⟨-1, -1, [-1, -1, 72, 73]⟩) ∧
    (⟨-1, -1, [-1, -1, 72, 73]⟩ : ubi_peb_desc).vol_id = UBI_ALL :=
  ⟨rfl, ((ubi_alloc_pdesc_vol_id sample_kmalloc
      { zero_device with max_lebs_per_peb := 2 } 0).1 _ rfl).1⟩

/-- C13: `ubi_leb_valid(vol, lnum)` is true if and only if
`0 <= lnum < vol->reserved_lebs`; it is false for every `lnum` when
`reserved_lebs <= 0`, and false for the markers `UBI_LEB_UNMAPPED` and
`UBI_UNKNOWN`. -/
theorem ubi_leb_valid_iff (vol : ubi_volume) (lnum : Int) :
    (ubi_leb_valid vol lnum = true ↔ 0 ≤ lnum ∧ lnum < vol.reserved_lebs) ∧
    (vol.reserved_lebs ≤ 0 → ubi_leb_valid vol lnum = false) ∧
    ubi_leb_valid vol UBI_LEB_UNMAPPED = false ∧
    ubi_leb_valid vol UBI_UNKNOWN = false := by
  refine ⟨?_, ?_, ?_, ?_⟩
  · simp [ubi_leb_valid]
  · intro h
    simp only [ubi_leb_valid, Bool.and_eq_false_imp, decide_eq_true_eq, decide_eq_false_iff_not]
    intro h0
    omega
  · simp [ubi_leb_valid, UBI_LEB_UNMAPPED]
  · simp [ubi_leb_valid, UBI_UNKNOWN]

/-- Witness of C13: a volume without reserved LEBs has no valid LEB 0. -/
theorem ubi_leb_valid_iff_witness : ubi_leb_valid zero_volume 0 = false :=
  (ubi_leb_valid_iff zero_volume 0).2.1 (by decide)

/-- The diagnostics of `n` calls of `ubi_ro_mode` on a device that is already
read-only: none. -/
theorem ubi_ro_mode_calls_log_of_ro (n : Nat) :
    ∀ ubi : ubi_device, ubi.ro_mode ≠ 0 → ubi_ro_mode_calls_log n ubi = [] := by
  induction n with
  | zero => intro ubi _; rfl
  | succ k ih =>
    intro ubi h
    have hstep : ubi_ro_mode ubi = (ubi, []) := by simp [ubi_ro_mode, h]
    simp only [ubi_ro_mode_calls_log, hstep, List.nil_append]
    exact ih ubi h

/-- C16: `ubi_ro_mode` is idempotent: a second call leaves the state of the
first and emits nothing.  The warning and the stack dump are emitted exactly
when `ro_mode` was 0 on entry, so over any number of consecutive calls they
are emitted once if the device was not read-only and there is a call, and not
at all otherwise. -/
theorem ubi_ro_mode_idempotent (ubi : ubi_device) :
    (ubi_ro_mode (ubi_ro_mode ubi).1).1 = (ubi_ro_mode ubi).1 ∧
    (ubi_ro_mode (ubi_ro_mode ubi).1).2 = [] ∧
    ((ubi_ro_mode ubi).2 =
        [Event.ubi_warn "switch to read-only mode", Event.dump_stack] ↔
      ubi.ro_mode = 0) ∧
    ((ubi_ro_mode ubi).2 = [] ↔ ubi.ro_mode ≠ 0) ∧
    (∀ n : Nat, ubi_ro_mode_calls_log n ubi =
      if ubi.ro_mode = 0 ∧ 0 < n then
        [Event.ubi_warn "switch to read-only mode", Event.dump_stack]
      else []) ∧
    (∀ n : Nat, List.count (Event.ubi_warn "switch to read-only mode")
      (ubi_ro_mode_calls_log n ubi) ≤ 1) := by
  have hlog : ∀ n : Nat, ubi_ro_mode_calls_log n ubi =
      if ubi.ro_mode = 0 ∧ 0 < n then
        [Event.ubi_warn "switch to read-only mode", Event.dump_stack]
      else [] := by
    intro n
    cases n with
    | zero => simp [ubi_ro_mode_calls_log]
    | succ k =>
      by_cases h : ubi.ro_mode = 0
      · have hnext : ({ ubi with ro_mode := 1 } : ubi_device).ro_mode ≠ 0 := by
          simp
        simp [ubi_ro_mode_calls_log, ubi_ro_mode, h,
          ubi_ro_mode_calls_log_of_ro k _ hnext]
      · simp [h, ubi_ro_mode_calls_log_of_ro (k + 1) ubi h]
  refine ⟨?_, ?_, ?_, ?_, hlog, ?_⟩
  · by_cases h : ubi.ro_mode = 0
    · simp [ubi_ro_mode, h]
    · simp [ubi_ro_mode, h]
  · by_cases h : ubi.ro_mode = 0
    · simp [ubi_ro_mode, h]
    · simp [ubi_ro_mode, h]
  · by_cases h : ubi.ro_mode = 0
    · simp [ubi_ro_mode, h]
    · simp [ubi_ro_mode, h]
  · by_cases h : ubi.ro_mode = 0
    · simp [ubi_ro_mode, h]
    · simp [ubi_ro_mode, h]
  · intro n
    rw [hlog n]
    split
    · decide
    · simp

/-- Witness of C16: four calls on a zeroed device emit the warning and the
stack dump once. -/
theorem ubi_ro_mode_idempotent_witness :
    ubi_ro_mode_calls_log 4 zero_device =
      [Event.ubi_warn "switch to read-only mode", Event.dump_stack] :=
  ((ubi_ro_mode_idempotent zero_device).2.2.2.2.1 4).trans rfl

/-- C17: `ubi_ro_mode` changes nothing but the latch: the device after the
call is the device before it with `ro_mode` replaced, and every other field of
`struct ubi_device` has the value it had. -/
theorem ubi_ro_mode_frame (ubi : ubi_device) :
    (ubi_ro_mode ubi).1 = { ubi with ro_mode := (ubi_ro_mode ubi).1.ro_mode } ∧
    (ubi_ro_mode ubi).1.cdev = ubi.cdev ∧
    (ubi_ro_mode ubi).1.dev = ubi.dev ∧
    (ubi_ro_mode ubi).1.ubi_num = ubi.ubi_num ∧
    (ubi_ro_mode ubi).1.ubi_name = ubi.ubi_name ∧
    (ubi_ro_mode ubi).1.vol_count = ubi.vol_count ∧
    (ubi_ro_mode ubi).1.volumes = ubi.volumes ∧
    (ubi_ro_mode ubi).1.volumes_lock = ubi.volumes_lock ∧
    (ubi_ro_mode ubi).1.ref_count = ubi.ref_count ∧
    (ubi_ro_mode ubi).1.image_seq = ubi.image_seq ∧
    (ubi_ro_mode ubi).1.version = ubi.version ∧
    (ubi_ro_mode ubi).1.rsvd_pebs = ubi.rsvd_pebs ∧
    (ubi_ro_mode ubi).1.avail_pebs = ubi.avail_pebs ∧
    (ubi_ro_mode ubi).1.beb_rsvd_pebs = ubi.beb_rsvd_pebs ∧
    (ubi_ro_mode ubi).1.beb_rsvd_level = ubi.beb_rsvd_level ∧
    (ubi_ro_mode ubi).1.bad_peb_limit = ubi.bad_peb_limit ∧
    (ubi_ro_mode ubi).1.autoresize_vol_id = ubi.autoresize_vol_id ∧
    (ubi_ro_mode ubi).1.vtbl_slots = ubi.vtbl_slots ∧
    (ubi_ro_mode ubi).1.vtbl_size = ubi.vtbl_size ∧
    (ubi_ro_mode ubi).1.vtbl = ubi.vtbl ∧
    (ubi_ro_mode ubi).1.device_mutex = ubi.device_mutex ∧
    (ubi_ro_mode ubi).1.max_ec = ubi.max_ec ∧
    (ubi_ro_mode ubi).1.mean_ec = ubi.mean_ec ∧
    (ubi_ro_mode ubi).1.global_sqnum = ubi.global_sqnum ∧
    (ubi_ro_mode ubi).1.alc_mutex = ubi.alc_mutex ∧
    (ubi_ro_mode ubi).1.eba_sem = ubi.eba_sem ∧
    (ubi_ro_mode ubi).1.fm_disabled = ubi.fm_disabled ∧
    (ubi_ro_mode ubi).1.fm = ubi.fm ∧
    (ubi_ro_mode ubi).1.fm_pool = ubi.fm_pool ∧
    (ubi_ro_mode ubi).1.fm_wl_pool = ubi.fm_wl_pool ∧
    (ubi_ro_mode ubi).1.fm_protect = ubi.fm_protect ∧
    (ubi_ro_mode ubi).1.fm_buf = ubi.fm_buf ∧
    (ubi_ro_mode ubi).1.fm_size = ubi.fm_size ∧
    (ubi_ro_mode ubi).1.fm_work = ubi.fm_work ∧
    (ubi_ro_mode ubi).1.fm_work_scheduled = ubi.fm_work_scheduled ∧
    (ubi_ro_mode ubi).1.fast_attach = ubi.fast_attach ∧
    (ubi_ro_mode ubi).1.used = ubi.used ∧
    (ubi_ro_mode ubi).1.erroneous = ubi.erroneous ∧
    (ubi_ro_mode ubi).1.free = ubi.free ∧
    (ubi_ro_mode ubi).1.free_count = ubi.free_count ∧
    (ubi_ro_mode ubi).1.scrub = ubi.scrub ∧
    (ubi_ro_mode ubi).1.pq = ubi.pq ∧
    (ubi_ro_mode ubi).1.pq_head = ubi.pq_head ∧
    (ubi_ro_mode ubi).1.wl_lock = ubi.wl_lock ∧
    (ubi_ro_mode ubi).1.move_mutex = ubi.move_mutex ∧
    (ubi_ro_mode ubi).1.work_sem = ubi.work_sem ∧
    (ubi_ro_mode ubi).1.wl_scheduled = ubi.wl_scheduled ∧
    (ubi_ro_mode ubi).1.lookuptbl = ubi.lookuptbl ∧
    (ubi_ro_mode ubi).1.move_from = ubi.move_from ∧
    (ubi_ro_mode ubi).1.move_to = ubi.move_to ∧
    (ubi_ro_mode ubi).1.move_to_put = ubi.move_to_put ∧
    (ubi_ro_mode ubi).1.works = ubi.works ∧
    (ubi_ro_mode ubi).1.works_count = ubi.works_count ∧
    (ubi_ro_mode ubi).1.bgt_thread = ubi.bgt_thread ∧
    (ubi_ro_mode ubi).1.thread_enabled = ubi.thread_enabled ∧
    (ubi_ro_mode ubi).1.bgt_name = ubi.bgt_name ∧
    (ubi_ro_mode ubi).1.flash_size = ubi.flash_size ∧
    (ubi_ro_mode ubi).1.peb_count = ubi.peb_count ∧
    (ubi_ro_mode ubi).1.peb_size = ubi.peb_size ∧
    (ubi_ro_mode ubi).1.max_lebs_per_peb = ubi.max_lebs_per_peb ∧
    (ubi_ro_mode ubi).1.bad_peb_count = ubi.bad_peb_count ∧
    (ubi_ro_mode ubi).1.good_peb_count = ubi.good_peb_count ∧
    (ubi_ro_mode ubi).1.corr_peb_count = ubi.corr_peb_count ∧
    (ubi_ro_mode ubi).1.erroneous_peb_count = ubi.erroneous_peb_count ∧
    (ubi_ro_mode ubi).1.max_erroneous = ubi.max_erroneous ∧
    (ubi_ro_mode ubi).1.min_io_size = ubi.min_io_size ∧
    (ubi_ro_mode ubi).1.hdrs_min_io_size = ubi.hdrs_min_io_size ∧
    (ubi_ro_mode ubi).1.leb_size = ubi.leb_size ∧
    (ubi_ro_mode ubi).1.slc_leb_size = ubi.slc_leb_size ∧
    (ubi_ro_mode ubi).1.leb_start = ubi.leb_start ∧
    (ubi_ro_mode ubi).1.ec_hdr_alsize = ubi.ec_hdr_alsize ∧
    (ubi_ro_mode ubi).1.vid_hdr_alsize = ubi.vid_hdr_alsize ∧
    (ubi_ro_mode ubi).1.vid_hdr_offset = ubi.vid_hdr_offset ∧
    (ubi_ro_mode ubi).1.vid_hdr_aloffset = ubi.vid_hdr_aloffset ∧
    (ubi_ro_mode ubi).1.vid_hdr_shift = ubi.vid_hdr_shift ∧
    (ubi_ro_mode ubi).1.bad_allowed = ubi.bad_allowed ∧
    (ubi_ro_mode ubi).1.nor_flash = ubi.nor_flash ∧
    (ubi_ro_mode ubi).1.max_write_size = ubi.max_write_size ∧
    (ubi_ro_mode ubi).1.mtd = ubi.mtd ∧
    (ubi_ro_mode ubi).1.peb_buf = ubi.peb_buf ∧
    (ubi_ro_mode ubi).1.buf_mutex = ubi.buf_mutex ∧
    (ubi_ro_mode ubi).1.ckvol_mutex = ubi.ckvol_mutex ∧
    (ubi_ro_mode ubi).1.dbg = ubi.dbg := by
  by_cases h : ubi.ro_mode = 0
  · simp [ubi_ro_mode, h]
  · simp [ubi_ro_mode, h]

/-- Witness of C17: after the switch a device keeps its sequence counter and
its LEB start. -/
theorem ubi_ro_mode_frame_witness :
    (ubi_ro_mode { zero_device with global_sqnum := 17, leb_start := 4096 }).1 =
      { zero_device with global_sqnum := 17, leb_start := 4096, ro_mode := 1 } :=
  (ubi_ro_mode_frame { zero_device with global_sqnum := 17, leb_start := 4096 }).1.trans rfl

/-- A store to `mleb.refcnt` is read back through `mleb.refcnt`. -/
theorem store_mleb_refcnt_mleb_refcnt (peb : ubi_ainf_peb) (v : Int) :
    (peb.store_mleb_refcnt v).mleb.refcnt = v := rfl

/-- A store to `mleb.refcnt` is read back through `sleb.pnum`, the same word
of the union. -/
theorem store_mleb_refcnt_sleb_pnum (peb : ubi_ainf_peb) (v : Int) :
    (peb.store_mleb_refcnt v).sleb.pnum = v := rfl

/-- A store to `mleb.refcnt` leaves the `consolidated` bit alone. -/
theorem store_mleb_refcnt_consolidated (peb : ubi_ainf_peb) (v : Int) :
    (peb.store_mleb_refcnt v).consolidated = peb.consolidated := rfl

/-- C19: on a non-consolidated PEB `ubi_ainf_dec_apeb_refcnt` returns 0 and
leaves the PEB record unchanged; on a consolidated PEB with reference count
`r` it stores the decremented count in `mleb.refcnt` and returns the stored
value, which is `r - 1` (for every `r` above `INT_MIN`, where the C decrement
does not overflow).  The store changes the first word of the union, so
`sleb.pnum` reads the same new value; `mleb.cpeb`, `sleb.lnum` and every field
outside the union keep their values. -/
theorem ubi_ainf_dec_apeb_refcnt_spec (peb : ubi_ainf_peb) :
    (peb.consolidated = 0 → ubi_ainf_dec_apeb_refcnt peb = (peb, 0)) ∧
    (peb.consolidated ≠ 0 →
      (ubi_ainf_dec_apeb_refcnt peb).1 =
        { peb with
          mleb_sleb :=
            { peb.mleb_sleb with refcnt_pnum := (ubi_ainf_dec_apeb_refcnt peb).2 } } ∧
      (ubi_ainf_dec_apeb_refcnt peb).1.mleb.refcnt = (ubi_ainf_dec_apeb_refcnt peb).2 ∧
      (ubi_ainf_dec_apeb_refcnt peb).1.sleb.pnum = (ubi_ainf_dec_apeb_refcnt peb).2 ∧
      (ubi_ainf_dec_apeb_refcnt peb).1.mleb.cpeb = peb.mleb.cpeb ∧
      (ubi_ainf_dec_apeb_refcnt peb).1.sleb.lnum = peb.sleb.lnum ∧
      (ubi_ainf_dec_apeb_refcnt peb).2 = int_sub peb.mleb.refcnt 1 ∧
      (INT_MIN < peb.mleb.refcnt → peb.mleb.refcnt ≤ INT_MAX →
        (ubi_ainf_dec_apeb_refcnt peb).2 = peb.mleb.refcnt - 1 ∧
        (ubi_ainf_dec_apeb_refcnt peb).1.mleb.refcnt = peb.mleb.refcnt - 1)) := by
  constructor
  · intro h
    simp [ubi_ainf_dec_apeb_refcnt, h]
  · intro h
    have hrun : ubi_ainf_dec_apeb_refcnt peb =
        (peb.store_mleb_refcnt (int_sub peb.mleb.refcnt 1), int_sub peb.mleb.refcnt 1) := by
      simp [ubi_ainf_dec_apeb_refcnt, h]
    rw [hrun]
    refine ⟨rfl, rfl, rfl, rfl, rfl, rfl, ?_⟩
    intro hlo hhi
    have hsub : int_sub peb.mleb.refcnt 1 = peb.mleb.refcnt - 1 := by
      unfold int_sub
      apply wrap_int_of_in_range
      · unfold INT_MIN at *
        omega
      · unfold INT_MAX at *
        omega
    exact ⟨hsub, hsub⟩

/-- Witness of C19: a consolidated PEB with three references is left with
two, and 2 is returned; the same word read as `sleb.pnum` is 2 as well; a
non-consolidated PEB yields 0 and is left as it was. -/
theorem ubi_ainf_dec_apeb_refcnt_spec_witness :
    (ubi_ainf_dec_apeb_refcnt (sample_apeb 3)).2 = 2 ∧
    (ubi_ainf_dec_apeb_refcnt (sample_apeb 3)).1.mleb.refcnt = 2 ∧
    (ubi_ainf_dec_apeb_refcnt (sample_apeb 3)).1.sleb.pnum = 2 ∧
    ubi_ainf_dec_apeb_refcnt sample_single_apeb = (sample_single_apeb, 0) :=
  ⟨(((ubi_ainf_dec_apeb_refcnt_spec (sample_apeb 3)).2 (by decide)).2.2.2.2.2.2
      (by decide) (by decide)).1,
   (((ubi_ainf_dec_apeb_refcnt_spec (sample_apeb 3)).2 (by decide)).2.2.2.2.2.2
      (by decide) (by decide)).2,
   (((ubi_ainf_dec_apeb_refcnt_spec (sample_apeb 3)).2 (by decide)).2.2.1).trans
     (((ubi_ainf_dec_apeb_refcnt_spec (sample_apeb 3)).2 (by decide)).2.2.2.2.2.2
      (by decide) (by decide)).1,
   (ubi_ainf_dec_apeb_refcnt_spec sample_single_apeb).1 rfl⟩

/-- One call of `ubi_remove_aleb` on valid records, in terms of what
`ubi_ainf_dec_apeb_refcnt` returns. -/
theorem ubi_remove_aleb_run (aleb_mem : Ptr → Option ubi_ainf_leb)
    (apeb_mem : Ptr → Option ubi_ainf_peb) (av : ubi_ainf_volume) (aleb : Ptr)
    (list : List Ptr) (a : ubi_ainf_leb) (peb : ubi_ainf_peb)
    (h_aleb : aleb ≠ NULL) (h_a : aleb_mem aleb = some a)
    (h_apeb : a.peb ≠ NULL) (h_peb : apeb_mem a.peb = some peb) :
    ubi_remove_aleb aleb_mem apeb_mem av aleb list =
      Except.ok (store_ptr apeb_mem a.peb (ubi_ainf_dec_apeb_refcnt peb).1,
        { av with root := av.root.erase aleb },
        if (ubi_ainf_dec_apeb_refcnt peb).2 = 0 then list ++ [a.peb] else list) := by
  have h1 : deref_ptr aleb_mem aleb = Except.ok a := by
    simp [deref_ptr, h_aleb, h_a]
  have h2 : deref_ptr apeb_mem a.peb = Except.ok peb := by
    simp [deref_ptr, h_apeb, h_peb]
  unfold ubi_remove_aleb
  simp only [h1, h2, rb_erase, list_add_tail]
  split <;> rfl

/-- The value `ubi_ainf_dec_apeb_refcnt` returns is 0 exactly for the last
owner: always on a non-consolidated PEB, and on a consolidated PEB when the
reference count (a C `int`) was 1. -/
theorem ubi_ainf_dec_apeb_refcnt_zero_iff (peb : ubi_ainf_peb)
    (h_lo : INT_MIN ≤ peb.mleb.refcnt) (h_hi : peb.mleb.refcnt ≤ INT_MAX) :
    (ubi_ainf_dec_apeb_refcnt peb).2 = 0 ↔
      (peb.consolidated = 0 ∨ peb.mleb.refcnt = 1) := by
  by_cases h : peb.consolidated = 0
  · simp [ubi_ainf_dec_apeb_refcnt, h]
  · simp only [ubi_ainf_dec_apeb_refcnt, h, if_false, false_or]
    unfold int_sub wrap_int
    unfold INT_MIN at h_lo
    unfold INT_MAX at h_hi
    constructor
    · intro h0
      omega
    · intro h1
      omega

/-- C12: `ubi_remove_aleb(av, aleb, list)` removes `aleb` from the LEB tree of
the volume, and appends the PEB that `aleb` references to the tail of `list`
if and only if `aleb` was its last owner: always for a non-consolidated PEB,
and for a consolidated PEB exactly when its reference count was 1 before the
call (it is then stored as 0); otherwise `list` is unchanged. -/
theorem ubi_remove_aleb_spec (aleb_mem : Ptr → Option ubi_ainf_leb)
    (apeb_mem : Ptr → Option ubi_ainf_peb) (av : ubi_ainf_volume) (aleb : Ptr)
    (list : List Ptr) (a : ubi_ainf_leb) (peb : ubi_ainf_peb)
    (h_aleb : aleb ≠ NULL) (h_a : aleb_mem aleb = some a)
    (h_apeb : a.peb ≠ NULL) (h_peb : apeb_mem a.peb = some peb)
    (h_lo : INT_MIN ≤ peb.mleb.refcnt) (h_hi : peb.mleb.refcnt ≤ INT_MAX) :
    ∃ apeb_mem1 av1 list1,
      ubi_remove_aleb aleb_mem apeb_mem av aleb list =
        Except.ok (apeb_mem1, av1, list1) ∧
      av1 = { av with root := av.root.erase aleb } ∧
      (av.root.Nodup → aleb ∉ av1.root) ∧
      (∀ x, x ≠ aleb → (x ∈ av1.root ↔ x ∈ av.root)) ∧
      (list1 = list ++ [a.peb] ↔ (peb.consolidated = 0 ∨ peb.mleb.refcnt = 1)) ∧
      (¬ (peb.consolidated = 0 ∨ peb.mleb.refcnt = 1) → list1 = list) ∧
      (peb.consolidated ≠ 0 → peb.mleb.refcnt = 1 →
        ∃ peb1, apeb_mem1 a.peb = some peb1 ∧ peb1.mleb.refcnt = 0) := by
  have hz := ubi_ainf_dec_apeb_refcnt_zero_iff peb h_lo h_hi
  have hne : list ++ [a.peb] ≠ list := by
    intro h
    have hl := congrArg List.length h
    simp at hl
  refine ⟨_, _, _, ubi_remove_aleb_run aleb_mem apeb_mem av aleb list a peb
    h_aleb h_a h_apeb h_peb, rfl, ?_, ?_, ?_, ?_, ?_⟩
  · intro hnd hmem
    exact (hnd.mem_erase_iff.mp hmem).1 rfl
  · intro x hx
    exact List.mem_erase_of_ne hx
  · constructor
    · intro h
      by_cases h0 : (ubi_ainf_dec_apeb_refcnt peb).2 = 0
      · exact hz.mp h0
      · rw [if_neg h0] at h
        exact absurd h.symm hne
    · intro h
      rw [if_pos (hz.mpr h)]
  · intro h
    have h0 : ¬ (ubi_ainf_dec_apeb_refcnt peb).2 = 0 := fun e => h (hz.mp e)
    rw [if_neg h0]
  · intro hc h1
    refine ⟨(ubi_ainf_dec_apeb_refcnt peb).1, by simp [store_ptr], ?_⟩
    have h0 := hz.mpr (Or.inr h1)
    simpa [ubi_ainf_dec_apeb_refcnt, hc] using h0

/-- Witness of C12: removing the LEB record of the non-consolidated sample PEB
puts that PEB (address 101) on the list; removing one of the two records of
the consolidated PEB does not. -/
theorem ubi_remove_aleb_spec_witness :
    (∃ apeb_mem1 av1,
      ubi_remove_aleb sample_aleb_mem sample_apeb_mem sample_av 202 [5] =
        Except.ok (apeb_mem1, av1, [5, 101])) ∧
    (∃ apeb_mem1 av1,
      ubi_remove_aleb sample_aleb_mem sample_apeb_mem sample_av 200 [5] =
        Except.ok (apeb_mem1, av1, [5])) := by
  obtain ⟨m1, v1, l1, hrun1, _, _, _, hiff1, _, _⟩ :=
    ubi_remove_aleb_spec sample_aleb_mem sample_apeb_mem sample_av 202 [5]
      ⟨⟨[]⟩, 2, 0, 101⟩ sample_single_apeb (by decide) rfl (by decide) rfl
      (by decide) (by decide)
  obtain ⟨m2, v2, l2, hrun2, _, _, _, _, hkeep2, _⟩ :=
    ubi_remove_aleb_spec sample_aleb_mem sample_apeb_mem sample_av 200 [5]
      ⟨⟨[]⟩, 0, 0, 100⟩ (sample_apeb 2) (by decide) rfl (by decide) rfl
      (by decide) (by decide)
  have e1 : l1 = [5, 101] := hiff1.mpr (Or.inl rfl)
  have e2 : l2 = [5] := hkeep2 (by decide)
  exact ⟨⟨m1, v1, by rw [hrun1, e1]⟩, ⟨m2, v2, by rw [hrun2, e2]⟩⟩

/-- Removing LEB records that all reference the consolidated PEB at `p`, no
more of them than the PEB has references: the calls return, the PEB is left
with the references not dropped, and it is appended to the list exactly when
the last reference was dropped. -/
theorem ubi_remove_alebs_shared (aleb_mem : Ptr → Option ubi_ainf_leb) (p : Ptr)
    (h_p : p ≠ NULL) :
    ∀ (alebs : List Ptr) (apeb_mem : Ptr → Option ubi_ainf_peb)
      (av : ubi_ainf_volume) (list : List Ptr) (peb : ubi_ainf_peb),
      (∀ x ∈ alebs, x ≠ NULL ∧ ∃ a, aleb_mem x = some a ∧ a.peb = p) →
      apeb_mem p = some peb → peb.consolidated ≠ 0 →
      (alebs.length : Int) ≤ peb.mleb.refcnt → peb.mleb.refcnt ≤ INT_MAX →
      ∃ apeb_mem1 av1 peb1,
        ubi_remove_alebs aleb_mem alebs apeb_mem av list =
          Except.ok (apeb_mem1, av1,
            if alebs ≠ [] ∧ (alebs.length : Int) = peb.mleb.refcnt then list ++ [p]
            else list) ∧
        apeb_mem1 p = some peb1 ∧ peb1.consolidated = peb.consolidated ∧
        peb1.mleb.refcnt = peb.mleb.refcnt - alebs.length := by
  intro alebs
  induction alebs with
  | nil =>
    intro apeb_mem av list peb _ hpeb _ _ _
    exact ⟨apeb_mem, av, peb, by simp [ubi_remove_alebs], hpeb, rfl, by simp⟩
  | cons x rest ih =>
    intro apeb_mem av list peb hall hpeb hcons hlen hmax
    obtain ⟨hx, a, ha, hap⟩ := hall x (List.mem_cons_self x rest)
    have hlen1 : (rest.length : Int) + 1 ≤ peb.mleb.refcnt := by
      simpa using hlen
    have hsub : int_sub peb.mleb.refcnt 1 = peb.mleb.refcnt - 1 := by
      unfold int_sub
      apply wrap_int_of_in_range
      · unfold INT_MIN
        omega
      · unfold INT_MAX at *
        omega
    have hdec2 : (ubi_ainf_dec_apeb_refcnt peb).2 = peb.mleb.refcnt - 1 := by
      simp [ubi_ainf_dec_apeb_refcnt, hcons, hsub]
    have hq_ref : (ubi_ainf_dec_apeb_refcnt peb).1.mleb.refcnt = peb.mleb.refcnt - 1 := by
      simp [ubi_ainf_dec_apeb_refcnt, hcons, hsub, store_mleb_refcnt_mleb_refcnt]
    have hq_cons : (ubi_ainf_dec_apeb_refcnt peb).1.consolidated = peb.consolidated := by
      simp [ubi_ainf_dec_apeb_refcnt, hcons, store_mleb_refcnt_consolidated]
    have hrun := ubi_remove_aleb_run aleb_mem apeb_mem av x list a peb hx ha
      (by rw [hap]; exact h_p) (by rw [hap]; exact hpeb)
    rw [hap, hdec2] at hrun
    generalize (ubi_ainf_dec_apeb_refcnt peb).1 = q at hrun hq_ref hq_cons
    have hall1 : ∀ y ∈ rest, y ≠ NULL ∧ ∃ b, aleb_mem y = some b ∧ b.peb = p :=
      fun y hy => hall y (List.mem_cons_of_mem x hy)
    have hstore : store_ptr apeb_mem p q p = some q := by
      simp [store_ptr]
    obtain ⟨m1, v1, peb1, hrest, hm1, hc1, hr1⟩ :=
      ih (store_ptr apeb_mem p q) { av with root := av.root.erase x }
        (if peb.mleb.refcnt - 1 = 0 then list ++ [p] else list) q
        hall1 hstore (by rw [hq_cons]; exact hcons) (by rw [hq_ref]; omega)
        (by rw [hq_ref]; omega)
    have hlist : (if rest ≠ [] ∧ (rest.length : Int) = q.mleb.refcnt then
          (if peb.mleb.refcnt - 1 = 0 then list ++ [p] else list) ++ [p]
        else (if peb.mleb.refcnt - 1 = 0 then list ++ [p] else list)) =
        (if x :: rest ≠ [] ∧ ((x :: rest).length : Int) = peb.mleb.refcnt then
          list ++ [p]
        else list) := by
      have hcl : ((x :: rest).length : Int) = (rest.length : Int) + 1 := by
        simp
      by_cases h0 : peb.mleb.refcnt - 1 = 0
      · have hrl : rest.length = 0 := by omega
        have hrn : rest = [] := List.length_eq_zero.mp hrl
        have hl : ¬ (rest ≠ [] ∧ (rest.length : Int) = q.mleb.refcnt) :=
          fun h => h.1 hrn
        have hr : x :: rest ≠ [] ∧ ((x :: rest).length : Int) = peb.mleb.refcnt :=
          ⟨List.cons_ne_nil x rest, by rw [hcl]; omega⟩
        rw [if_neg hl, if_pos h0, if_pos hr]
      · by_cases h1 : (rest.length : Int) = peb.mleb.refcnt - 1
        · have hrn : rest ≠ [] := by
            intro e
            rw [e] at h1
            simp only [List.length_nil, Nat.cast_zero] at h1
            omega
          have hl : rest ≠ [] ∧ (rest.length : Int) = q.mleb.refcnt :=
            ⟨hrn, by rw [hq_ref]; exact h1⟩
          have hr : x :: rest ≠ [] ∧ ((x :: rest).length : Int) = peb.mleb.refcnt :=
            ⟨List.cons_ne_nil x rest, by rw [hcl]; omega⟩
          rw [if_pos hl, if_neg h0, if_pos hr]
        · have hl : ¬ (rest ≠ [] ∧ (rest.length : Int) = q.mleb.refcnt) := by
            rintro ⟨_, h⟩
            rw [hq_ref] at h
            exact h1 h
          have hr : ¬ (x :: rest ≠ [] ∧ ((x :: rest).length : Int) = peb.mleb.refcnt) := by
            rintro ⟨_, h⟩
            rw [hcl] at h
            omega
          rw [if_neg hl, if_neg h0, if_neg hr]
    refine ⟨m1, v1, peb1, ?_, hm1, by rw [hc1, hq_cons], ?_⟩
    · rw [← hlist, ← hrest]
      simp only [ubi_remove_alebs, hrun]
    · rw [hr1, hq_ref]
      simp only [List.length_cons, Nat.cast_add, Nat.cast_one]
      omega

/-- C20: for a consolidated PEB with reference count `n >= 1` that is
referenced by `n` LEB records, removing those records with `ubi_remove_aleb`,
in any order, appends the PEB to the target list exactly once, on the `n`-th
removal, and leaves its reference count at 0; the first `n - 1` removals (and
any shorter run) leave the list unchanged. -/
theorem ubi_remove_alebs_last_owner (aleb_mem : Ptr → Option ubi_ainf_leb)
    (apeb_mem : Ptr → Option ubi_ainf_peb) (av : ubi_ainf_volume)
    (list : List Ptr) (p : Ptr) (peb : ubi_ainf_peb) (alebs order : List Ptr)
    (h_p : p ≠ NULL) (h_peb : apeb_mem p = some peb)
    (h_cons : peb.consolidated ≠ 0) (h_n : 1 ≤ alebs.length)
    (h_ref : peb.mleb.refcnt = (alebs.length : Int))
    (h_int : (alebs.length : Int) ≤ INT_MAX)
    (h_alebs : ∀ x ∈ alebs, x ≠ NULL ∧ ∃ a, aleb_mem x = some a ∧ a.peb = p)
    (h_order : order.Perm alebs) :
    (∃ apeb_mem1 av1 peb1,
      ubi_remove_alebs aleb_mem order apeb_mem av list =
        Except.ok (apeb_mem1, av1, list ++ [p]) ∧
      apeb_mem1 p = some peb1 ∧ peb1.mleb.refcnt = 0) ∧
    (∀ k : Nat, k < alebs.length →
      ∃ apeb_mem1 av1 peb1,
        ubi_remove_alebs aleb_mem (order.take k) apeb_mem av list =
          Except.ok (apeb_mem1, av1, list) ∧
        apeb_mem1 p = some peb1 ∧ peb1.mleb.refcnt = (alebs.length : Int) - k) := by
  have hlen : order.length = alebs.length := h_order.length_eq
  have hord : ∀ x ∈ order, x ≠ NULL ∧ ∃ a, aleb_mem x = some a ∧ a.peb = p :=
    fun x hx => h_alebs x (h_order.mem_iff.mp hx)
  constructor
  · obtain ⟨m1, v1, peb1, hrun, hm1, _, hr1⟩ :=
      ubi_remove_alebs_shared aleb_mem p h_p order apeb_mem av list peb hord h_peb
        h_cons (by rw [hlen, h_ref]) (by rw [h_ref]; exact h_int)
    have hne : order ≠ [] := by
      intro e
      rw [e] at hlen
      simp at hlen
      omega
    have heq : (order.length : Int) = peb.mleb.refcnt := by rw [hlen, h_ref]
    rw [if_pos ⟨hne, heq⟩] at hrun
    exact ⟨m1, v1, peb1, hrun, hm1, by rw [hr1, hlen, h_ref]; omega⟩
  · intro k hk
    have htl : (order.take k).length = k := by
      rw [List.length_take]
      omega
    obtain ⟨m1, v1, peb1, hrun, hm1, _, hr1⟩ :=
      ubi_remove_alebs_shared aleb_mem p h_p (order.take k) apeb_mem av list peb
        (fun x hx => hord x (List.mem_of_mem_take hx)) h_peb h_cons
        (by rw [htl, h_ref]; omega) (by rw [h_ref]; exact h_int)
    have hneq : ¬ ((order.take k) ≠ [] ∧ ((order.take k).length : Int) = peb.mleb.refcnt) := by
      rintro ⟨_, h⟩
      rw [htl, h_ref] at h
      omega
    rw [if_neg hneq] at hrun
    exact ⟨m1, v1, peb1, hrun, hm1, by rw [hr1, htl, h_ref]⟩

/-- Witness of C20: the sample consolidated PEB (address 100) has two
references, held by the records at 200 and 201; removing 201 then 200 appends
it once, and removing only the first of them does not. -/
theorem ubi_remove_alebs_last_owner_witness :
    (∃ apeb_mem1 av1 peb1,
      ubi_remove_alebs sample_aleb_mem [201, 200] sample_apeb_mem sample_av [] =
        Except.ok (apeb_mem1, av1, [100]) ∧
      apeb_mem1 100 = some peb1 ∧ peb1.mleb.refcnt = 0) ∧
    (∀ k : Nat, k < 2 →
      ∃ apeb_mem1 av1 peb1,
        ubi_remove_alebs sample_aleb_mem (List.take k [201, 200]) sample_apeb_mem
            sample_av [] =
          Except.ok (apeb_mem1, av1, []) ∧
        apeb_mem1 100 = some peb1 ∧ peb1.mleb.refcnt = ((2 : Nat) : Int) - k) :=
  ubi_remove_alebs_last_owner sample_aleb_mem sample_apeb_mem sample_av [] 100
    (sample_apeb 2) [200, 201] [201, 200] (by decide) rfl (by decide) (by decide)
    rfl (by decide)
    (by
      intro x hx
      simp only [List.mem_cons, List.mem_singleton, List.not_mem_nil, or_false] at hx
      rcases hx with h | h
      · subst h
        exact ⟨by decide, ⟨⟨[]⟩, 0, 0, 100⟩, rfl, rfl⟩
      · subst h
        exact ⟨by decide, ⟨⟨[]⟩, 1, 0, 100⟩, rfl, rfl⟩)
    (List.Perm.swap 200 201 [])

/-- Whenever the search loop of `ubi_find_fm_block`, started at counter `i`,
returns a non-NULL pointer, that pointer is in a slot at or after `i` and
below `used_blocks`, its entry has the PEB number, and every slot between `i`
and it holds a pointer to an entry with another PEB number. -/
theorem ubi_find_fm_block_loop_found (wl_mem : Ptr → Option ubi_wl_entry)
    (fm : ubi_fastmap_layout) (pnum : Int) (h_max : fm.used_blocks ≤ INT_MAX) :
    ∀ (fuel i : Nat) (p : Ptr),
      ubi_find_fm_block_loop wl_mem fm pnum fuel (i : Int) = Except.ok p → p ≠ NULL →
      ∃ (j : Nat) (e : ubi_wl_entry), i ≤ j ∧ (j : Int) < fm.used_blocks ∧
        fm.e.get? j = some p ∧ wl_mem p = some e ∧ e.pnum = pnum ∧
        ∀ k : Nat, i ≤ k → k < j →
          ∃ p1 e1, fm.e.get? k = some p1 ∧ p1 ≠ NULL ∧ wl_mem p1 = some e1 ∧
            e1.pnum ≠ pnum := by
  intro fuel
  induction fuel with
  | zero =>
    intro i p h _
    simp [ubi_find_fm_block_loop] at h
  | succ f ih =>
    intro i p h hp
    by_cases hi : (i : Int) < fm.used_blocks
    · have hneg : ¬ ((i : Int) < 0) := by omega
      have hnat : (i : Int).toNat = i := by omega
      unfold ubi_find_fm_block_loop at h
      rw [if_pos hi] at h
      unfold array_get at h
      rw [if_neg hneg, hnat] at h
      cases hget : fm.e.get? i with
      | none =>
        rw [hget] at h
        simp at h
      | some q =>
        rw [hget] at h
        simp only at h
        unfold deref_wl at h
        by_cases hq : q = NULL
        · rw [if_pos hq] at h
          simp at h
        · rw [if_neg hq] at h
          cases hw : wl_mem q with
          | none =>
            rw [hw] at h
            simp at h
          | some e =>
            rw [hw] at h
            simp only at h
            by_cases hpn : e.pnum = pnum
            · rw [if_pos hpn] at h
              have hqp : q = p := by
                injection h
              subst hqp
              refine ⟨i, e, le_refl _, hi, hget, hw, hpn, ?_⟩
              intro k h1 h2
              omega
            · rw [if_neg hpn] at h
              have hstep : int_add (i : Int) 1 = ((i + 1 : Nat) : Int) := by
                unfold int_add
                rw [wrap_int_of_in_range]
                · push_cast
                  rfl
                · unfold INT_MIN
                  omega
                · unfold INT_MAX at *
                  omega
              rw [hstep] at h
              obtain ⟨j, e2, hij, hj, hgj, hwj, hpj, hbefore⟩ := ih (i + 1) p h hp
              refine ⟨j, e2, by omega, hj, hgj, hwj, hpj, ?_⟩
              intro k h1 h2
              by_cases hki : k = i
              · subst hki
                exact ⟨q, e, hget, hq, hw, hpn⟩
              · exact hbefore k (by omega) h2
    · unfold ubi_find_fm_block_loop at h
      rw [if_neg hi] at h
      have hnull : NULL = p := by
        injection h
      exact absurd hnull.symm hp

/-- More fuel does not change what the search loop of `ubi_find_fm_block`
returns. -/
theorem ubi_find_fm_block_loop_fuel_mono (wl_mem : Ptr → Option ubi_wl_entry)
    (fm : ubi_fastmap_layout) (pnum : Int) :
    ∀ (fuel : Nat) (i : Int) (p : Ptr),
      ubi_find_fm_block_loop wl_mem fm pnum fuel i = Except.ok p →
      ∀ fuel1 : Nat, fuel ≤ fuel1 →
        ubi_find_fm_block_loop wl_mem fm pnum fuel1 i = Except.ok p := by
  intro fuel
  induction fuel with
  | zero =>
    intro i p h
    simp [ubi_find_fm_block_loop] at h
  | succ f ih =>
    intro i p h fuel1 hle
    obtain ⟨f1, rfl⟩ : ∃ f1, fuel1 = f1 + 1 := ⟨fuel1 - 1, by omega⟩
    unfold ubi_find_fm_block_loop at h ⊢
    by_cases hi : i < fm.used_blocks
    · rw [if_pos hi] at h ⊢
      cases hag : array_get fm.e i with
      | error f0 =>
        rw [hag] at h
        simp at h
      | ok q =>
        rw [hag] at h
        simp only at h ⊢
        cases hd : deref_wl wl_mem q with
        | error f0 =>
          rw [hd] at h
          simp at h
        | ok e =>
          rw [hd] at h
          simp only at h ⊢
          by_cases hpn : e.pnum = pnum
          · rw [if_pos hpn] at h ⊢
            exact h
          · rw [if_neg hpn] at h ⊢
            exact ih _ p h f1 (by omega)
    · rw [if_neg hi] at h ⊢
      exact h

/-- C18: whenever `ubi_find_fm_block(ubi, pnum)` returns a non-NULL entry, the
entry has `pnum` and is `ubi->fm->e[i]` for the smallest `i` in
`[0, used_blocks)` whose entry has that PEB number.  Under the precondition
`0 <= used_blocks <= UBI_FM_MAX_BLOCKS`, with the array `e` of
`UBI_FM_MAX_BLOCKS` slots and `e[0..used_blocks)` pointing to entries, the
search returns without any fault (no access out of bounds, no NULL
dereference) and every fuel above `used_blocks` is enough: the loop body runs
at most `used_blocks` times. -/
theorem ubi_find_fm_block_first_match (K : ubi_consts)
    (fm_mem : Ptr → Option ubi_fastmap_layout) (wl_mem : Ptr → Option ubi_wl_entry)
    (ubi : ubi_device) (pnum : Int) (fm : ubi_fastmap_layout)
    (h_fm : fm_mem ubi.fm = some fm) (h_int : fm.used_blocks ≤ INT_MAX) :
    (∀ p, ubi_find_fm_block fm_mem wl_mem ubi pnum = Except.ok p → p ≠ NULL →
      ∃ (i : Nat) (e : ubi_wl_entry), (i : Int) < fm.used_blocks ∧
        fm.e.get? i = some p ∧ wl_mem p = some e ∧ e.pnum = pnum ∧
        ∀ k : Nat, k < i →
          ∃ p1 e1, fm.e.get? k = some p1 ∧ wl_mem p1 = some e1 ∧ e1.pnum ≠ pnum) ∧
    (ubi.fm ≠ NULL → 0 ≤ fm.used_blocks →
      fm.used_blocks ≤ (K.UBI_FM_MAX_BLOCKS : Int) →
      fm.e.length = K.UBI_FM_MAX_BLOCKS →
      (∀ (i : Nat) (p : Ptr), (i : Int) < fm.used_blocks → fm.e.get? i = some p →
        p ≠ NULL ∧ ∃ e, wl_mem p = some e) →
      ∃ p, ubi_find_fm_block fm_mem wl_mem ubi pnum = Except.ok p ∧
        ∀ fuel : Nat, fm.used_blocks.toNat < fuel →
          ubi_find_fm_block_loop wl_mem fm pnum fuel 0 = Except.ok p) := by
  constructor
  · intro p hres hp
    by_cases hnull : ubi.fm = NULL
    · simp [ubi_find_fm_block, hnull] at hres
      exact absurd hres.symm hp
    · have hrun : ubi_find_fm_block fm_mem wl_mem ubi pnum =
          ubi_find_fm_block_loop wl_mem fm pnum (fm.used_blocks.toNat + 1)
            ((0 : Nat) : Int) := by
        simp [ubi_find_fm_block, hnull, h_fm]
      rw [hrun] at hres
      obtain ⟨j, e, _, hj, hg, hw, hpn, hbefore⟩ :=
        ubi_find_fm_block_loop_found wl_mem fm pnum h_int _ 0 p hres hp
      refine ⟨j, e, hj, hg, hw, hpn, ?_⟩
      intro k hk
      obtain ⟨p1, e1, h1, _, h2, h3⟩ := hbefore k (Nat.zero_le k) hk
      exact ⟨p1, e1, h1, h2, h3⟩
  · intro hnull _ hle hlen hvalid
    have hent : ∀ i : Nat, (i : Int) < fm.used_blocks →
        ∃ p e, fm.e.get? i = some p ∧ p ≠ NULL ∧ wl_mem p = some e := by
      intro i hi
      have hil : i < fm.e.length := by
        rw [hlen]
        omega
      obtain ⟨hp, e, he⟩ := hvalid i (fm.e.get ⟨i, hil⟩) hi (List.get?_eq_get hil)
      exact ⟨fm.e.get ⟨i, hil⟩, e, List.get?_eq_get hil, hp, he⟩
    have hrun : ubi_find_fm_block fm_mem wl_mem ubi pnum =
        ubi_find_fm_block_loop wl_mem fm pnum (fm.used_blocks.toNat + 1)
          ((0 : Nat) : Int) := by
      simp [ubi_find_fm_block, hnull, h_fm]
    have hfirst : ∃ p, ubi_find_fm_block_loop wl_mem fm pnum
        (fm.used_blocks.toNat + 1) ((0 : Nat) : Int) = Except.ok p := by
      rcases ubi_find_fm_block_loop_spec wl_mem fm pnum h_int hent
          fm.used_blocks.toNat 0 (fm.used_blocks.toNat + 1) (by omega) (by omega) with
        ⟨_, p, _, _, _, _, _, _, _, _, hres⟩ | ⟨_, hres⟩
      · exact ⟨p, hres⟩
      · exact ⟨NULL, hres⟩
    obtain ⟨p, hp⟩ := hfirst
    refine ⟨p, by rw [hrun]; exact hp, ?_⟩
    intro fuel hfuel
    exact ubi_find_fm_block_loop_fuel_mono wl_mem fm pnum _ _ p hp fuel (by omega)

/-- Witness of C18 on the sample fastmap: PEB 42 is found in slot 2 (address
12), the first slot with that PEB number, without any fault. -/
theorem ubi_find_fm_block_first_match_witness :
    (∃ (i : Nat) (e : ubi_wl_entry), (i : Int) < sample_fm.used_blocks ∧
      sample_fm.e.get? i = some 12 ∧ sample_wl_mem 12 = some e ∧ e.pnum = 42 ∧
      ∀ k : Nat, k < i →
        ∃ p1 e1, sample_fm.e.get? k = some p1 ∧ sample_wl_mem p1 = some e1 ∧
          e1.pnum ≠ 42) ∧
    ∃ p, ubi_find_fm_block sample_fm_mem sample_wl_mem sample_fm_device 42 =
        Except.ok p ∧
      ∀ fuel : Nat, sample_fm.used_blocks.toNat < fuel →
        ubi_find_fm_block_loop sample_wl_mem sample_fm 42 fuel 0 = Except.ok p :=
  ⟨(ubi_find_fm_block_first_match { sample_consts with UBI_FM_MAX_BLOCKS := 4 }
      sample_fm_mem sample_wl_mem sample_fm_device 42 sample_fm rfl (by decide)).1
      12 rfl (by decide),
   (ubi_find_fm_block_first_match { sample_consts with UBI_FM_MAX_BLOCKS := 4 }
      sample_fm_mem sample_wl_mem sample_fm_device 42 sample_fm rfl (by decide)).2
      (by decide) (by decide) (by decide) rfl
      (by
        intro i p hi hg
        have hi3 : (i : Int) < 3 := hi
        have hcases : i = 0 ∨ i = 1 ∨ i = 2 := by omega
        rcases hcases with h | h | h
        · subst h
          have hp : p = 10 := by
            have e : sample_fm.e.get? 0 = some 10 := rfl
            rw [e] at hg
            injection hg with h1
            exact h1.symm
          subst hp
          exact ⟨by decide, ⟨⟨[]⟩, 0, 40⟩, rfl⟩
        · subst h
          have hp : p = 11 := by
            have e : sample_fm.e.get? 1 = some 11 := rfl
            rw [e] at hg
            injection hg with h1
            exact h1.symm
          subst hp
          exact ⟨by decide, ⟨⟨[]⟩, 0, 41⟩, rfl⟩
        · subst h
          have hp : p = 12 := by
            have e : sample_fm.e.get? 2 = some 12 := rfl
            rw [e] at hg
            injection hg with h1
            exact h1.symm
          subst hp
          exact ⟨by decide, ⟨⟨[]⟩, 0, 42⟩, rfl⟩)⟩

/-- The counter after `ubi_next_sqnums` when the run fits below the modulus:
the old value plus the length of the run; the call returns the old value and
touches no other field that the run depends on. -/
theorem ubi_next_sqnums_counter (ubi : ubi_device) (num : Int) (h_pos : 0 ≤ num)
    (h_room : (ubi.global_sqnum : Int) + num < SQNUM_MODULUS) :
    (ubi_next_sqnums ubi num).1 = ubi.global_sqnum ∧
    (ubi_next_sqnums ubi num).2.global_sqnum = ubi.global_sqnum + num.toNat := by
  refine ⟨rfl, ?_⟩
  simp only [ubi_next_sqnums]
  unfold SQNUM_MODULUS at *
  have h0 : (0 : Int) ≤ (ubi.global_sqnum : Int) + num := by omega
  rw [Int.emod_eq_of_lt h0 (by exact_mod_cast h_room)]
  omega

/-- A run that fits below the modulus is the sequence `first, first + 1, ...`
without any wrap. -/
theorem sqnum_run_eq_range (first : Nat) (num : Int)
    (h_room : first + num.toNat ≤ SQNUM_MODULUS) :
    sqnum_run first num = (List.range num.toNat).map (fun k => first + k) := by
  unfold sqnum_run
  apply List.map_congr_left
  intro k hk
  have hk1 : k < num.toNat := List.mem_range.mp hk
  apply Nat.mod_eq_of_lt
  omega

/-- The sequence numbers handed out by consecutive calls that fit below the
modulus: the counter value and its successors, in order, none left out. -/
theorem sqnums_handed_out_eq_range (calls : List Int) :
    ∀ ubi : ubi_device, (∀ num ∈ calls, 0 ≤ num) →
      (ubi.global_sqnum : Int) + calls.sum < SQNUM_MODULUS →
      sqnums_handed_out ubi calls =
        (List.range calls.sum.toNat).map (fun k => ubi.global_sqnum + k) := by
  induction calls with
  | nil =>
    intro ubi _ _
    simp [sqnums_handed_out]
  | cons num rest ih =>
    intro ubi hpos hroom
    have hnum : 0 ≤ num := hpos num (List.mem_cons_self num rest)
    have hrest : ∀ x ∈ rest, 0 ≤ x := fun x hx => hpos x (List.mem_cons_of_mem num hx)
    have hsum : 0 ≤ rest.sum := List.sum_nonneg hrest
    rw [List.sum_cons] at hroom
    obtain ⟨_, hcounter⟩ := ubi_next_sqnums_counter ubi num hnum (by omega)
    have hrun : sqnum_run (ubi_next_sqnums ubi num).1 num =
        (List.range num.toNat).map (fun k => ubi.global_sqnum + k) := by
      apply sqnum_run_eq_range
      show ubi.global_sqnum + num.toNat ≤ SQNUM_MODULUS
      unfold SQNUM_MODULUS at *
      omega
    have hih := ih (ubi_next_sqnums ubi num).2 hrest (by rw [hcounter]; omega)
    rw [hcounter] at hih
    have hsplit : (num :: rest).sum.toNat = num.toNat + rest.sum.toNat := by
      rw [List.sum_cons]
      omega
    simp only [sqnums_handed_out]
    rw [hrun, hih, hsplit, List.range_add, List.map_append, List.map_map]
    congr 1
    apply List.map_congr_left
    intro k _
    simp only [Function.comp_apply]
    omega

/-- C15: sequence-number monotonicity.  Across any sequence of calls to
`ubi_next_sqnum` / `ubi_next_sqnums` on one device, as long as the 64-bit
counter does not reach its modulus, the sequence numbers handed out are
strictly increasing, hence none is handed out twice; they are the counter
value and its successors without a gap, so that `ubi_next_sqnums(n)` reserves
`n` contiguous values and the next call starts right after them. -/
theorem sqnums_strictly_increasing (ubi : ubi_device) (calls : List Int)
    (h_pos : ∀ num ∈ calls, 0 ≤ num)
    (h_room : (ubi.global_sqnum : Int) + calls.sum < SQNUM_MODULUS) :
    List.Pairwise (fun a b => a < b) (sqnums_handed_out ubi calls) ∧
    (sqnums_handed_out ubi calls).Nodup ∧
    sqnums_handed_out ubi calls =
      (List.range calls.sum.toNat).map (fun k => ubi.global_sqnum + k) ∧
    (∀ num rest, calls = num :: rest →
      (ubi_next_sqnums ubi num).1 = ubi.global_sqnum ∧
      sqnum_run (ubi_next_sqnums ubi num).1 num =
        (List.range num.toNat).map (fun k => ubi.global_sqnum + k) ∧
      (ubi_next_sqnums ubi num).2.global_sqnum = ubi.global_sqnum + num.toNat) := by
  have heq := sqnums_handed_out_eq_range calls ubi h_pos h_room
  have hpair : List.Pairwise (fun a b => a < b) (sqnums_handed_out ubi calls) := by
    rw [heq]
    apply List.Pairwise.map _ _ (List.pairwise_lt_range _)
    intro a b hab
    omega
  refine ⟨hpair, ?_, heq, ?_⟩
  · exact hpair.imp (fun h => Nat.ne_of_lt h)
  · intro num rest hc
    subst hc
    have hnum : 0 ≤ num := h_pos num (List.mem_cons_self num rest)
    have hrest : ∀ x ∈ rest, 0 ≤ x := fun x hx => h_pos x (List.mem_cons_of_mem num hx)
    have hsum : 0 ≤ rest.sum := List.sum_nonneg hrest
    rw [List.sum_cons] at h_room
    obtain ⟨h1, h2⟩ := ubi_next_sqnums_counter ubi num hnum (by omega)
    refine ⟨h1, ?_, h2⟩
    apply sqnum_run_eq_range
    show ubi.global_sqnum + num.toNat ≤ SQNUM_MODULUS
    unfold SQNUM_MODULUS at *
    omega

/-- Witness of C15: from counter 7, a single number, a run of three and
another single number are 7, 8, 9, 10, 11. -/
theorem sqnums_strictly_increasing_witness :
    sqnums_handed_out { zero_device with global_sqnum := 7 } [1, 3, 1] =
      [7, 8, 9, 10, 11] ∧
    List.Pairwise (fun a b => a < b)
      (sqnums_handed_out { zero_device with global_sqnum := 7 } [1, 3, 1]) :=
  ⟨rfl, (sqnums_strictly_increasing { zero_device with global_sqnum := 7 } [1, 3, 1]
    (by decide) (by decide)).1⟩

/-- `ubi_next_sqnum` leaves `leb_start` alone. -/
theorem ubi_next_sqnum_leb_start (ubi : ubi_device) :
    (ubi_next_sqnum ubi).2.leb_start = ubi.leb_start := rfl

/-- A store into an array either succeeds or is out of bounds. -/
theorem array_set_error {α : Type} (xs : List α) (i : Int) (v : α) (f : Fault)
    (h : array_set xs i v = Except.error f) : f = Fault.out_of_bounds := by
  unfold array_set at h
  split at h
  · injection h with h1
    exact h1.symm
  · split at h
    · cases h
    · injection h with h1
      exact h1.symm

/-- The initialisation loop of `ubi_alloc_pdesc` never runs out of fuel when
given more fuel than slots are left: it terminates. -/
theorem ubi_alloc_pdesc_loop_terminates (m : Int) (h_max : m ≤ INT_MAX) :
    ∀ (n i fuel : Nat) (lnums : List Int), m ≤ (i : Int) + n → n < fuel →
      ubi_alloc_pdesc_loop m fuel i lnums ≠ Except.error Fault.out_of_fuel := by
  intro n
  induction n with
  | zero =>
    intro i fuel lnums hle hlt
    obtain ⟨f, rfl⟩ : ∃ f, fuel = f + 1 := ⟨fuel - 1, by omega⟩
    have hnot : ¬ ((i : Int) < m) := by omega
    simp [ubi_alloc_pdesc_loop, hnot]
  | succ j ih =>
    intro i fuel lnums hle hlt
    obtain ⟨f, rfl⟩ : ∃ f, fuel = f + 1 := ⟨fuel - 1, by omega⟩
    unfold ubi_alloc_pdesc_loop
    by_cases hi : (i : Int) < m
    · rw [if_pos hi]
      cases hset : array_set lnums (i : Int) UBI_UNKNOWN with
      | error f0 =>
        simp only
        intro h
        injection h with h1
        have h2 := array_set_error lnums (i : Int) UBI_UNKNOWN f0 hset
        rw [h1] at h2
        cases h2
      | ok lnums1 =>
        simp only
        have hstep : int_add (i : Int) 1 = ((i + 1 : Nat) : Int) := by
          unfold int_add
          rw [wrap_int_of_in_range]
          · push_cast
            rfl
          · unfold INT_MIN
            omega
          · unfold INT_MAX at *
            omega
        rw [hstep]
        exact ih (i + 1) f lnums1 (by push_cast; omega) (by omega)
    · rw [if_neg hi]
      simp

/-- Whenever the initialisation loop of `ubi_alloc_pdesc`, started at counter
`i`, returns an array, the array has the length it had, every slot from `i` up
to `max_lebs_per_peb` holds `UBI_UNKNOWN`, and every other slot is
untouched. -/
theorem ubi_alloc_pdesc_loop_ok (m : Int) (h_max : m ≤ INT_MAX) :
    ∀ (fuel i : Nat) (lnums l : List Int),
      ubi_alloc_pdesc_loop m fuel i lnums = Except.ok l →
      l.length = lnums.length ∧
      (∀ k : Nat, i ≤ k → (k : Int) < m → l[k]? = some UBI_UNKNOWN) ∧
      (∀ k : Nat, k < i ∨ m ≤ (k : Int) → l[k]? = lnums[k]?) := by
  intro fuel
  induction fuel with
  | zero =>
    intro i lnums l h
    simp [ubi_alloc_pdesc_loop] at h
  | succ f ih =>
    intro i lnums l h
    unfold ubi_alloc_pdesc_loop at h
    by_cases hi : (i : Int) < m
    · rw [if_pos hi] at h
      have hneg : ¬ ((i : Int) < 0) := by omega
      have hnat : (i : Int).toNat = i := by omega
      by_cases hil : i < lnums.length
      · have hset : array_set lnums (i : Int) UBI_UNKNOWN =
            Except.ok (lnums.set i UBI_UNKNOWN) := by
          unfold array_set
          rw [if_neg hneg, hnat, if_pos hil]
        have hstep : int_add (i : Int) 1 = ((i + 1 : Nat) : Int) := by
          unfold int_add
          rw [wrap_int_of_in_range]
          · push_cast
            rfl
          · unfold INT_MIN
            omega
          · unfold INT_MAX at *
            omega
        rw [hset, hstep] at h
        simp only at h
        obtain ⟨hlen1, hnew, hold⟩ := ih (i + 1) (lnums.set i UBI_UNKNOWN) l h
        refine ⟨by simpa using hlen1, ?_, ?_⟩
        · intro k hk1 hk2
          by_cases hki : k = i
          · subst hki
            rw [hold k (Or.inl (Nat.lt_succ_self k))]
            simp [hil]
          · exact hnew k (by omega) hk2
        · intro k hk
          have hk1 : k < i + 1 ∨ m ≤ (k : Int) := by omega
          rw [hold k hk1]
          have hne : i ≠ k := by omega
          simp [List.getElem?_set_ne hne]
      · have hset : array_set lnums (i : Int) UBI_UNKNOWN =
            Except.error Fault.out_of_bounds := by
          unfold array_set
          rw [if_neg hneg, hnat, if_neg hil]
        rw [hset] at h
        simp at h
    · rw [if_neg hi] at h
      have hl : lnums = l := by
        injection h
      subst hl
      refine ⟨rfl, ?_, fun _ _ => rfl⟩
      intro k hk1 hk2
      omega

/-- C21: a successful `ubi_alloc_pdesc` returns a descriptor with
`pnum == UBI_UNKNOWN` and `lnums[i] == UBI_UNKNOWN` for every `i` with
`0 <= i < ubi->max_lebs_per_peb`: no slot is left uninitialised.  The
initialisation loop terminates for every value of `max_lebs_per_peb` (it never
runs out of the fuel `max_lebs_per_peb + 1`), and writes no slot when
`max_lebs_per_peb <= 0`.  The call does succeed whenever `kmalloc` hands out an
object with room for `max_lebs_per_peb` slots, and then it leaves the slots
beyond `max_lebs_per_peb` as they were. -/
theorem ubi_alloc_pdesc_initialised (kmalloc : Int → Nat → Option ubi_peb_desc)
    (ubi : ubi_device) (gfp_flags : Nat) (h_int : ubi.max_lebs_per_peb ≤ INT_MAX) :
    (∀ d, ubi_alloc_pdesc kmalloc ubi gfp_flags = Except.ok (some d) →
      d.pnum = UBI_UNKNOWN ∧
      ∀ i : Nat, (i : Int) < ubi.max_lebs_per_peb → d.lnums[i]? = some UBI_UNKNOWN) ∧
    ubi_alloc_pdesc kmalloc ubi gfp_flags ≠ Except.error Fault.out_of_fuel ∧
    (∀ (lnums : List Int) (fuel : Nat), ubi.max_lebs_per_peb.toNat < fuel →
      ubi_alloc_pdesc_loop ubi.max_lebs_per_peb fuel 0 lnums ≠
        Except.error Fault.out_of_fuel) ∧
    (ubi.max_lebs_per_peb ≤ 0 →
      (∀ (lnums : List Int) (fuel : Nat), 0 < fuel →
        ubi_alloc_pdesc_loop ubi.max_lebs_per_peb fuel 0 lnums = Except.ok lnums) ∧
      ∀ d0, kmalloc (wrap_int (sizeof_ubi_peb_desc + sizeof_int * ubi.max_lebs_per_peb))
          gfp_flags = some d0 →
        ubi_alloc_pdesc kmalloc ubi gfp_flags =
          Except.ok (some ⟨UBI_UNKNOWN, UBI_UNKNOWN, d0.lnums⟩)) ∧
    (∀ d0, kmalloc (wrap_int (sizeof_ubi_peb_desc + sizeof_int * ubi.max_lebs_per_peb))
        gfp_flags = some d0 →
      ubi.max_lebs_per_peb ≤ (d0.lnums.length : Int) →
      ∃ d, ubi_alloc_pdesc kmalloc ubi gfp_flags = Except.ok (some d) ∧
        d.pnum = UBI_UNKNOWN ∧ d.lnums.length = d0.lnums.length ∧
        (∀ i : Nat, (i : Int) < ubi.max_lebs_per_peb →
          d.lnums[i]? = some UBI_UNKNOWN) ∧
        (∀ i : Nat, ubi.max_lebs_per_peb ≤ (i : Int) → d.lnums[i]? = d0.lnums[i]?)) := by
  have hnone : kmalloc (wrap_int (sizeof_ubi_peb_desc + sizeof_int * ubi.max_lebs_per_peb))
      gfp_flags = none → ubi_alloc_pdesc kmalloc ubi gfp_flags = Except.ok none := by
    intro hk
    unfold ubi_alloc_pdesc
    simp only [hk]
  have hsome : ∀ d0,
      kmalloc (wrap_int (sizeof_ubi_peb_desc + sizeof_int * ubi.max_lebs_per_peb))
        gfp_flags = some d0 →
      ubi_alloc_pdesc kmalloc ubi gfp_flags =
        (match ubi_alloc_pdesc_loop ubi.max_lebs_per_peb
            (ubi.max_lebs_per_peb.toNat + 1) ((0 : Nat) : Int) d0.lnums with
         | Except.error f => Except.error f
         | Except.ok l => Except.ok (some ⟨UBI_UNKNOWN, UBI_UNKNOWN, l⟩)) := by
    intro d0 hk
    unfold ubi_alloc_pdesc
    simp only [hk]
    rfl
  have hterm : ∀ (lnums : List Int) (fuel : Nat), ubi.max_lebs_per_peb.toNat < fuel →
      ubi_alloc_pdesc_loop ubi.max_lebs_per_peb fuel ((0 : Nat) : Int) lnums ≠
        Except.error Fault.out_of_fuel := by
    intro lnums fuel hfuel
    exact ubi_alloc_pdesc_loop_terminates ubi.max_lebs_per_peb h_int
      ubi.max_lebs_per_peb.toNat 0 fuel lnums (by omega) hfuel
  have hzero : ubi.max_lebs_per_peb ≤ 0 → ∀ (lnums : List Int) (fuel : Nat), 0 < fuel →
      ubi_alloc_pdesc_loop ubi.max_lebs_per_peb fuel ((0 : Nat) : Int) lnums =
        Except.ok lnums := by
    intro hm lnums fuel hfuel
    obtain ⟨f, rfl⟩ : ∃ f, fuel = f + 1 := ⟨fuel - 1, by omega⟩
    have hnot : ¬ (((0 : Nat) : Int) < ubi.max_lebs_per_peb) := by omega
    unfold ubi_alloc_pdesc_loop
    rw [if_neg hnot]
  refine ⟨?_, ?_, hterm, ?_, ?_⟩
  · intro d hd
    cases hk : kmalloc (wrap_int (sizeof_ubi_peb_desc + sizeof_int * ubi.max_lebs_per_peb))
        gfp_flags with
    | none =>
      rw [hnone hk] at hd
      injection hd with h1
      cases h1
    | some d0 =>
      rw [hsome d0 hk] at hd
      cases hl : ubi_alloc_pdesc_loop ubi.max_lebs_per_peb
          (ubi.max_lebs_per_peb.toNat + 1) ((0 : Nat) : Int) d0.lnums with
      | error f =>
        rw [hl] at hd
        cases hd
      | ok l =>
        rw [hl] at hd
        simp only at hd
        injection hd with h1
        injection h1 with h2
        subst h2
        obtain ⟨_, hnew, _⟩ := ubi_alloc_pdesc_loop_ok ubi.max_lebs_per_peb h_int _ 0
          d0.lnums l hl
        exact ⟨rfl, fun i hi => hnew i (Nat.zero_le i) hi⟩
  · cases hk : kmalloc (wrap_int (sizeof_ubi_peb_desc + sizeof_int * ubi.max_lebs_per_peb))
        gfp_flags with
    | none =>
      rw [hnone hk]
      intro h
      cases h
    | some d0 =>
      rw [hsome d0 hk]
      cases hl : ubi_alloc_pdesc_loop ubi.max_lebs_per_peb
          (ubi.max_lebs_per_peb.toNat + 1) ((0 : Nat) : Int) d0.lnums with
      | error f =>
        simp only
        intro h
        injection h with h1
        rw [h1] at hl
        exact hterm d0.lnums _ (by omega) hl
      | ok l =>
        simp only
        intro h
        cases h
  · intro hm
    refine ⟨hzero hm, ?_⟩
    intro d0 hk
    rw [hsome d0 hk, hzero hm d0.lnums _ (by omega)]
  · intro d0 hk hlen
    obtain ⟨l, hl, hlen1, hnew, hold⟩ := ubi_alloc_pdesc_loop_spec ubi.max_lebs_per_peb
      h_int ubi.max_lebs_per_peb.toNat 0 (ubi.max_lebs_per_peb.toNat + 1) d0.lnums
      (by omega) (by omega) hlen
    refine ⟨⟨UBI_UNKNOWN, UBI_UNKNOWN, l⟩, ?_, rfl, hlen1,
      fun i hi => hnew i (Nat.zero_le i) hi, fun i hi => hold i (Or.inr hi)⟩
    rw [hsome d0 hk, hl]

/-- Witness of C21: with four slots handed out and three LEBs per PEB, slots
0, 1 and 2 hold `UBI_UNKNOWN` and slot 3 is as the allocator left it; with no
LEB per PEB no slot is written. -/
theorem ubi_alloc_pdesc_initialised_witness :
    ubi_alloc_pdesc sample_kmalloc { zero_device with max_lebs_per_peb := 3 } 0 =
      Except.ok (some ⟨-1, -1, [-1, -1, -1, 73]⟩) ∧
    (∀ i : Nat, (i : Int) < 3 →
      ([-1, -1, -1, 73] : List Int)[i]? = some UBI_UNKNOWN) ∧
    ubi_alloc_pdesc sample_kmalloc zero_device 0 =
      Except.ok (some ⟨UBI_UNKNOWN, UBI_UNKNOWN, [70, 71, 72, 73]⟩) :=
  ⟨rfl,
   ((ubi_alloc_pdesc_initialised sample_kmalloc
      { zero_device with max_lebs_per_peb := 3 } 0 (by decide)).1
      ⟨-1, -1, [-1, -1, -1, 73]⟩ rfl).2,
   ((ubi_alloc_pdesc_initialised sample_kmalloc zero_device 0 (by decide)).2.2.2.1
      (by decide)).2 ⟨77, 78, [70, 71, 72, 73]⟩ rfl⟩

/-- C22: the index computed by `vol_id2idx` fits the `volumes` array.  For a
device with `0 <= vtbl_slots <= UBI_MAX_VOLUMES` and a volume ID that is a
user ID below `vtbl_slots` or one of the `UBI_INT_VOL_COUNT` internal IDs from
`UBI_INTERNAL_VOL_START`, the index is at least 0 and below
`UBI_MAX_VOLUMES + UBI_INT_VOL_COUNT`, so the access `ubi->volumes[idx]` is in
bounds; the subtraction and the addition stay within a signed 32-bit `int`,
so the index is the exact `vol_id - UBI_INTERNAL_VOL_START + vtbl_slots` for
an internal ID and `vol_id` for a user ID.  The constants are such that user
IDs lie below the internal ones, the number of internal volumes is not
negative and the array size fits an `int`. -/
theorem vol_id2idx_in_bounds (K : ubi_consts) (ubi : ubi_device) (vol_id : Int)
    (h_user_below : K.UBI_MAX_VOLUMES ≤ K.UBI_INTERNAL_VOL_START)
    (h_size_fits : K.UBI_MAX_VOLUMES + K.UBI_INT_VOL_COUNT ≤ INT_MAX)
    (h_count : 0 ≤ K.UBI_INT_VOL_COUNT)
    (h_slots_lo : 0 ≤ ubi.vtbl_slots) (h_slots_hi : ubi.vtbl_slots ≤ K.UBI_MAX_VOLUMES)
    (h_id : (0 ≤ vol_id ∧ vol_id < ubi.vtbl_slots) ∨
      (K.UBI_INTERNAL_VOL_START ≤ vol_id ∧
        vol_id < K.UBI_INTERNAL_VOL_START + K.UBI_INT_VOL_COUNT)) :
    0 ≤ vol_id2idx K ubi vol_id ∧
    vol_id2idx K ubi vol_id < K.UBI_MAX_VOLUMES + K.UBI_INT_VOL_COUNT ∧
    vol_id2idx K ubi vol_id =
      (if vol_id ≥ K.UBI_INTERNAL_VOL_START then
        vol_id - K.UBI_INTERNAL_VOL_START + ubi.vtbl_slots
      else vol_id) ∧
    (K.UBI_INTERNAL_VOL_START ≤ vol_id →
      INT_MIN ≤ vol_id - K.UBI_INTERNAL_VOL_START ∧
      vol_id - K.UBI_INTERNAL_VOL_START ≤ INT_MAX ∧
      INT_MIN ≤ vol_id - K.UBI_INTERNAL_VOL_START + ubi.vtbl_slots ∧
      vol_id - K.UBI_INTERNAL_VOL_START + ubi.vtbl_slots ≤ INT_MAX) ∧
    ((ubi.volumes.length : Int) = K.UBI_MAX_VOLUMES + K.UBI_INT_VOL_COUNT →
      ∃ v, array_get ubi.volumes (vol_id2idx K ubi vol_id) = Except.ok v) := by
  have hexact : vol_id2idx K ubi vol_id =
      (if vol_id ≥ K.UBI_INTERNAL_VOL_START then
        vol_id - K.UBI_INTERNAL_VOL_START + ubi.vtbl_slots
      else vol_id) := by
    unfold vol_id2idx
    by_cases hge : vol_id ≥ K.UBI_INTERNAL_VOL_START
    · rw [if_pos hge, if_pos hge]
      have hlt : vol_id < K.UBI_INTERNAL_VOL_START + K.UBI_INT_VOL_COUNT := by
        rcases h_id with h | h
        · omega
        · exact h.2
      have hsub : int_sub vol_id K.UBI_INTERNAL_VOL_START =
          vol_id - K.UBI_INTERNAL_VOL_START := by
        unfold int_sub
        apply wrap_int_of_in_range
        · unfold INT_MIN
          omega
        · unfold INT_MAX at *
          omega
      rw [hsub]
      unfold int_add
      apply wrap_int_of_in_range
      · unfold INT_MIN
        omega
      · unfold INT_MAX at *
        omega
    · rw [if_neg hge, if_neg hge]
  have hrange : 0 ≤ vol_id2idx K ubi vol_id ∧
      vol_id2idx K ubi vol_id < K.UBI_MAX_VOLUMES + K.UBI_INT_VOL_COUNT := by
    rw [hexact]
    rcases h_id with h | h
    · have hlt : ¬ (vol_id ≥ K.UBI_INTERNAL_VOL_START) := by omega
      rw [if_neg hlt]
      constructor <;> omega
    · rw [if_pos h.1]
      constructor <;> omega
  refine ⟨hrange.1, hrange.2, hexact, ?_, ?_⟩
  · intro hge
    have hlt : vol_id < K.UBI_INTERNAL_VOL_START + K.UBI_INT_VOL_COUNT := by
      rcases h_id with h | h
      · omega
      · exact h.2
    unfold INT_MIN
    unfold INT_MAX at *
    refine ⟨by omega, by omega, by omega, by omega⟩
  · intro hlen
    have hneg : ¬ (vol_id2idx K ubi vol_id < 0) := by omega
    have hin : (vol_id2idx K ubi vol_id).toNat < ubi.volumes.length := by omega
    refine ⟨ubi.volumes.get ⟨(vol_id2idx K ubi vol_id).toNat, hin⟩, ?_⟩
    unfold array_get
    rw [if_neg hneg, List.get?_eq_get hin]

/-- Witness of C22: with the sample constants and a full table of 128 slots,
the layout volume gets index 128, the last slot of the 129. -/
theorem vol_id2idx_in_bounds_witness :
    vol_id2idx sample_consts sample_vtbl_device
        sample_consts.UBI_INTERNAL_VOL_START = 128 ∧
    vol_id2idx sample_consts sample_vtbl_device
        sample_consts.UBI_INTERNAL_VOL_START <
      sample_consts.UBI_MAX_VOLUMES + sample_consts.UBI_INT_VOL_COUNT ∧
    ∃ v, array_get sample_vtbl_device.volumes
      (vol_id2idx sample_consts sample_vtbl_device
        sample_consts.UBI_INTERNAL_VOL_START) = Except.ok v :=
  ⟨rfl,
   (vol_id2idx_in_bounds sample_consts sample_vtbl_device
      sample_consts.UBI_INTERNAL_VOL_START (by decide) (by decide) (by decide)
      (by decide) (by decide) (Or.inr ⟨by decide, by decide⟩)).2.1,
   (vol_id2idx_in_bounds sample_consts sample_vtbl_device
      sample_consts.UBI_INTERNAL_VOL_START (by decide) (by decide) (by decide)
      (by decide) (by decide) (Or.inr ⟨by decide, by decide⟩)).2.2.2.2
      (by simp [sample_vtbl_device, sample_consts])⟩

end UBI
